import Mathlib

/-!
Verification of the OCP (Open Context Protocol) context-header codec and
OpenAPI schema discovery, as implemented in
`src/ocp-python/src/ocp_agent/headers.py`,
`src/ocp-python/src/ocp_agent/context.py` and
`src/ocp-python/src/ocp/schema_discovery.py`.

Modelling conventions used throughout this file:

* Python dynamic JSON values are modelled by the inductive type `Json`
  (JSON numbers are restricted to integers; none of the code under
  verification produces or consumes floating point values).
* Python `dict`s are modelled as insertion-ordered association lists with
  Python `dict` insert/lookup semantics (`pyGet`, `pyInsert`): inserting an
  existing key overwrites the value in place, a fresh key is appended.
* Python `bytes` are modelled as `List Nat`, each entry < 256.
* Exceptions are modelled with `Except PyErr`; the exception classes that
  appear in the code each get a `PyErr` constructor.
* Standard-library leaves that the repository calls are modelled from their
  documented behaviour where a full reimplementation is out of scope
  (gzip, `datetime`); `base64`, UTF-8 and the `json` codec are implemented
  concretely in the format CPython produces (compact separators,
  `ensure_ascii=True`).
* Where the Python code stores a dynamically-typed value that is in
  practice a string (for example `AgentContext.context_id`), the model
  narrows the field to `String` and treats other shapes as a `TypeError`;
  the narrowings are noted on the definitions they affect.
-/

namespace OCP

/-- Python exception classes appearing in the verified code paths. -/
inductive PyErr where
  | jsonDecodeError
  | binasciiError
  | badGzipFile
  | eofError
  | unicodeDecodeError
  | unicodeEncodeError
  | typeError
  | valueError
  | attributeError
  deriving DecidableEq, Repr

/-- JSON values as produced by `json.loads` / consumed by `json.dumps`.
Numbers are restricted to integers; the verified code never handles
floating point payloads. Object fields keep insertion order, as Python
dicts do. -/
inductive Json where
  | null
  | bool (b : Bool)
  | num (n : Int)
  | str (s : String)
  | arr (elems : List Json)
  | obj (fields : List (String × Json))

/-! ## Python dict semantics over association lists -/

/-- Python `dict` lookup (`d.get(k)`): first binding of the key.
Keys are unique in every dict the modelled code builds. -/
def pyGet {α : Type} (d : List (String × α)) (k : String) : Option α :=
  match d with
  | [] => none
  | (k', v) :: rest => if k' = k then some v else pyGet rest k

/-- Python `dict.get(k, default)`. -/
def pyGetD {α : Type} (d : List (String × α)) (k : String) (dflt : α) : α :=
  (pyGet d k).getD dflt

/-- Python `d[k] = v`: overwrite in place if the key exists (keeping its
position), otherwise append. -/
def pyInsert {α : Type} (d : List (String × α)) (k : String) (v : α) :
    List (String × α) :=
  match d with
  | [] => [(k, v)]
  | (k', v') :: rest =>
      if k' = k then (k', v) :: rest else (k', v') :: pyInsert rest k v

/-- Python `d.update(other)` on a copy of `d`. -/
def pyUpdate {α : Type} (d other : List (String × α)) : List (String × α) :=
  other.foldl (fun acc kv => pyInsert acc kv.1 kv.2) d

theorem pyGet_pyInsert {α : Type} (d : List (String × α)) (k k' : String) (v : α) :
    pyGet (pyInsert d k v) k' = if k = k' then some v else pyGet d k' := by
  induction d with
  | nil => by_cases h : k = k' <;> simp [pyInsert, pyGet, h]
  | cons kv rest ih =>
    obtain ⟨a, b⟩ := kv
    by_cases hak : a = k
    · subst hak
      by_cases hk : a = k' <;> simp [pyInsert, pyGet, hk]
    · by_cases hk : a = k'
      · subst hk
        have : ¬ k = a := fun h => hak h.symm
        simp [pyInsert, pyGet, hak, this]
      · simp [pyInsert, pyGet, hak, hk, ih]

theorem pyGet_eq_none_of_not_mem {α : Type} (d : List (String × α)) (k : String)
    (h : k ∉ d.map Prod.fst) : pyGet d k = none := by
  induction d with
  | nil => rfl
  | cons kv rest ih =>
    obtain ⟨a, b⟩ := kv
    simp only [List.map_cons, List.mem_cons, not_or] at h
    have : ¬ a = k := fun hh => h.1 hh.symm
    simp [pyGet, this, ih h.2]

theorem pyGet_pyUpdate {α : Type} (d other : List (String × α)) (k : String)
    (hnd : (other.map Prod.fst).Nodup) :
    pyGet (pyUpdate d other) k = (pyGet other k).or (pyGet d k) := by
  induction other generalizing d with
  | nil => simp [pyUpdate, pyGet]
  | cons kv rest ih =>
    obtain ⟨a, b⟩ := kv
    simp only [List.map_cons, List.nodup_cons] at hnd
    have step : pyUpdate d ((a, b) :: rest) = pyUpdate (pyInsert d a b) rest := rfl
    rw [step, ih _ hnd.2, pyGet_pyInsert]
    by_cases hk : a = k
    · subst hk
      rw [pyGet_eq_none_of_not_mem rest a hnd.1]
      simp [pyGet]
    · simp [pyGet, hk]

/-! ## JSON serialisation: CPython `json.dumps(obj, separators=(',', ':'))`
with the default `ensure_ascii=True`. -/

/-- Lowercase hex digit, as CPython's encoder emits in `\uXXXX` escapes. -/
def hexDigit (d : Nat) : Char :=
  if d < 10 then Char.ofNat (48 + d) else Char.ofNat (87 + d)

/-- Four lowercase hex digits of `n % 0x10000`. -/
def hex4 (n : Nat) : List Char :=
  [hexDigit (n / 4096 % 16), hexDigit (n / 256 % 16),
   hexDigit (n / 16 % 16), hexDigit (n % 16)]

/-- Division-loop worker for decimal printing, with explicit fuel so that it
is structurally recursive (`n` itself is always enough fuel). -/
def natCharsAux : Nat → Nat → List Char
  | 0, _ => []
  | _ + 1, 0 => []
  | fuel + 1, n + 1 =>
      natCharsAux fuel ((n + 1) / 10) ++ [Char.ofNat (48 + (n + 1) % 10)]

/-- Decimal digits of a natural number, most significant first. -/
def natChars (n : Nat) : List Char :=
  if n = 0 then ['0'] else natCharsAux n n

/-- Decimal rendering of a Python int. -/
def intChars (i : Int) : List Char :=
  if i < 0 then '-' :: natChars i.natAbs else natChars i.natAbs

/-- Escape one character the way CPython's
`json.encoder.py_encode_basestring_ascii` does: `"` and `\` get two-char
escapes, the five control shortcuts `\b \f \n \r \t` get theirs, the rest
of `0x20..0x7e` passes through, everything else becomes `\uXXXX`
(astral characters as a surrogate pair). -/
def escChar (c : Char) : List Char :=
  if c = '"' then ['\\', '"']
  else if c = '\\' then ['\\', '\\']
  else if c = '\x08' then ['\\', 'b']
  else if c = '\x0c' then ['\\', 'f']
  else if c = '\n' then ['\\', 'n']
  else if c = '\r' then ['\\', 'r']
  else if c = '\t' then ['\\', 't']
  else if 0x20 ≤ c.toNat ∧ c.toNat ≤ 0x7e then [c]
  else if c.toNat < 0x10000 then '\\' :: 'u' :: hex4 c.toNat
  else
    let m := c.toNat - 0x10000
    '\\' :: 'u' :: hex4 (0xd800 + m / 0x400) ++ '\\' :: 'u' :: hex4 (0xdc00 + m % 0x400)

/-- Escaped body of a JSON string literal. -/
def escString (cs : List Char) : List Char := cs.flatMap escChar

/-- A serialised JSON string literal, quotes included. -/
def strChars (s : String) : List Char := '"' :: escString s.data ++ ['"']

mutual

/-- `json.dumps(j, separators=(',', ':'))` as a character list. -/
def jsonDumpChars : Json → List Char
  | .null => ['n', 'u', 'l', 'l']
  | .bool b => if b then ['t', 'r', 'u', 'e'] else ['f', 'a', 'l', 's', 'e']
  | .num i => intChars i
  | .str s => strChars s
  | .arr xs => '[' :: dumpElems xs ++ [']']
  | .obj kvs => '\x7b' :: dumpItems kvs ++ ['\x7d']

/-- Comma-separated serialised array elements. -/
def dumpElems : List Json → List Char
  | [] => []
  | x :: xs => jsonDumpChars x ++ dumpElemsTail xs

/-- Serialised array elements after the first, each preceded by a comma. -/
def dumpElemsTail : List Json → List Char
  | [] => []
  | x :: xs => ',' :: jsonDumpChars x ++ dumpElemsTail xs

/-- Comma-separated serialised object members. -/
def dumpItems : List (String × Json) → List Char
  | [] => []
  | (k, v) :: kvs => strChars k ++ ':' :: jsonDumpChars v ++ dumpItemsTail kvs

/-- Serialised object members after the first, each preceded by a comma. -/
def dumpItemsTail : List (String × Json) → List Char
  | [] => []
  | (k, v) :: kvs => ',' :: strChars k ++ ':' :: jsonDumpChars v ++ dumpItemsTail kvs

end

/-- `json.dumps(j, separators=(',', ':'))` as a string. -/
def jsonDumps (j : Json) : String := String.mk (jsonDumpChars j)

mutual

/-- Node-count measure used as parser fuel accounting. -/
def sizeJ : Json → Nat
  | .null | .bool _ | .num _ | .str _ => 1
  | .arr xs => 1 + sizeElems xs
  | .obj kvs => 1 + sizeItems kvs

/-- Measure of an element list. -/
def sizeElems : List Json → Nat
  | [] => 0
  | x :: xs => 1 + sizeJ x + sizeElems xs

/-- Measure of a member list. -/
def sizeItems : List (String × Json) → Nat
  | [] => 0
  | (_, v) :: kvs => 1 + sizeJ v + sizeItems kvs

end

/-! ## JSON parsing: CPython `json.loads` (strict mode), restricted to the
integer-number fragment of the grammar (the code under verification never
produces or consumes floats, so a numeric token is a sign and a digit
run). -/

/-- JSON whitespace accepted between tokens. -/
def isJsonWs (c : Char) : Bool :=
  c = ' ' || c = '\t' || c = '\n' || c = '\r'

/-- Skip leading JSON whitespace. -/
def skipWs : List Char → List Char
  | [] => []
  | c :: r => if isJsonWs c then skipWs r else c :: r

/-- Value of a (case-insensitive) hex digit. -/
def hexVal (c : Char) : Option Nat :=
  if 48 ≤ c.toNat ∧ c.toNat ≤ 57 then some (c.toNat - 48)
  else if 97 ≤ c.toNat ∧ c.toNat ≤ 102 then some (c.toNat - 87)
  else if 65 ≤ c.toNat ∧ c.toNat ≤ 70 then some (c.toNat - 55)
  else none

/-- Decimal digit test. -/
def isDigitCh (c : Char) : Bool := 48 ≤ c.toNat && c.toNat ≤ 57

/-- Value of a decimal digit character. -/
def digitVal (c : Char) : Nat := c.toNat - 48

/-- Split a maximal run of decimal digits off the front of the input. -/
def takeDigits : List Char → (List Nat × List Char)
  | [] => ([], [])
  | c :: r =>
      if isDigitCh c then
        let (ds, rest) := takeDigits r
        (digitVal c :: ds, rest)
      else ([], c :: r)

/-- Accumulate decimal digits most-significant-first. -/
def digitsToNat (ds : List Nat) : Nat := ds.foldl (fun a d => a * 10 + d) 0

/-- Parse four hex digits. -/
def pHex4 : List Char → Option (Nat × List Char)
  | h1 :: h2 :: h3 :: h4 :: r =>
    match hexVal h1, hexVal h2, hexVal h3, hexVal h4 with
    | some d1, some d2, some d3, some d4 => some (d1 * 4096 + d2 * 256 + d3 * 16 + d4, r)
    | _, _, _, _ => none
  | _ => none

/-- Parse one escape sequence, the leading backslash already consumed.
Surrogate pairs in `\u` escapes are recombined; a lone surrogate is
rejected because a Lean `Char` (a Unicode scalar value) cannot represent
it, whereas CPython would produce a surrogate code point in its `str`. -/
def pEsc : List Char → Option (Char × List Char)
  | [] => none
  | e :: r =>
    if e = 'u' then
      match pHex4 r with
      | none => none
      | some (m, r2) =>
        if 0xd800 ≤ m ∧ m < 0xdc00 then
          match r2 with
          | b1 :: b2 :: r3 =>
            if b1 = '\\' ∧ b2 = 'u' then
              match pHex4 r3 with
              | none => none
              | some (m2, r4) =>
                if 0xdc00 ≤ m2 ∧ m2 < 0xe000 then
                  some (Char.ofNat (0x10000 + (m - 0xd800) * 0x400 + (m2 - 0xdc00)), r4)
                else none
            else none
          | _ => none
        else if 0xdc00 ≤ m ∧ m < 0xe000 then none
        else some (Char.ofNat m, r2)
    else if e = '"' then some ('"', r)
    else if e = '\\' then some ('\\', r)
    else if e = '/' then some ('/', r)
    else if e = 'b' then some ('\x08', r)
    else if e = 'f' then some ('\x0c', r)
    else if e = 'n' then some ('\n', r)
    else if e = 'r' then some ('\r', r)
    else if e = 't' then some ('\t', r)
    else none

/-- Parse the body of a JSON string literal (the opening quote already
consumed), returning the decoded characters and the input after the
closing quote. Fuel-indexed; callers pass at least the input length plus
one, which always suffices since every step consumes input. -/
def pStr : Nat → List Char → Option (List Char × List Char)
  | 0, _ => none
  | _ + 1, [] => none
  | fuel + 1, c :: r =>
    if c = '"' then some ([], r)
    else if c = '\\' then
      match pEsc r with
      | none => none
      | some (x, r2) => (pStr fuel r2).map fun (s, rest) => (x :: s, rest)
    else if c.toNat < 0x20 then none
    else (pStr fuel r).map fun (s, rest) => (c :: s, rest)

/-- `pat.isPrefixOf l`-style literal matcher: expect the exact characters
`pat` and return the input after them. -/
def expectChars (pat : List Char) (l : List Char) : Option (List Char) :=
  if pat.isPrefixOf l then some (l.drop pat.length) else none

mutual

/-- Parse one JSON value (fuel-indexed; every recursive call spends one
unit, and `jsonLoads` supplies more fuel than any parse can consume). -/
def pValue : Nat → List Char → Option (Json × List Char)
  | 0, _ => none
  | fuel + 1, input =>
    match skipWs input with
    | [] => none
    | c :: r =>
      if c = 'n' then (expectChars ['u', 'l', 'l'] r).map fun rest => (.null, rest)
      else if c = 't' then (expectChars ['r', 'u', 'e'] r).map fun rest => (.bool true, rest)
      else if c = 'f' then (expectChars ['a', 'l', 's', 'e'] r).map fun rest => (.bool false, rest)
      else if c = '"' then (pStr (r.length + 1) r).map fun (s, rest) => (.str (String.mk s), rest)
      else if c = '[' then
        match skipWs r with
        | [] => none
        | c1 :: r1 =>
          if c1 = ']' then some (.arr [], r1)
          else (pElemsRest fuel (c1 :: r1)).map fun (xs, rest) => (.arr xs, rest)
      else if c = '\x7b' then
        match skipWs r with
        | [] => none
        | c1 :: r1 =>
          if c1 = '\x7d' then some (.obj [], r1)
          else (pItemsRest fuel (c1 :: r1)).map fun (kvs, rest) => (.obj kvs, rest)
      else if c = '-' then
        match r with
        | d :: _ =>
          if isDigitCh d then
            let (ds, rest) := takeDigits r
            some (.num (-(digitsToNat ds : Int)), rest)
          else none
        | [] => none
      else if isDigitCh c then
        let (ds, rest) := takeDigits (c :: r)
        some (.num (digitsToNat ds), rest)
      else none

/-- Parse the elements of a non-empty array, starting at the first
element, through the closing bracket. -/
def pElemsRest : Nat → List Char → Option (List Json × List Char)
  | 0, _ => none
  | fuel + 1, input =>
    match pValue fuel input with
    | none => none
    | some (v, r) =>
      match skipWs r with
      | [] => none
      | c :: r2 =>
        if c = ',' then (pElemsRest fuel r2).map fun (vs, rest) => (v :: vs, rest)
        else if c = ']' then some ([v], r2)
        else none

/-- Parse the members of a non-empty object, starting at the first key,
through the closing brace. -/
def pItemsRest : Nat → List Char → Option (List (String × Json) × List Char)
  | 0, _ => none
  | fuel + 1, input =>
    match skipWs input with
    | [] => none
    | c :: r =>
      if c = '"' then
        match pStr (r.length + 1) r with
        | none => none
        | some (k, r1) =>
          match skipWs r1 with
          | [] => none
          | c2 :: r2 =>
            if c2 = ':' then
              match pValue fuel r2 with
              | none => none
              | some (v, r3) =>
                match skipWs r3 with
                | [] => none
                | c3 :: r4 =>
                  if c3 = ',' then
                    (pItemsRest fuel r4).map fun (kvs, rest) => ((String.mk k, v) :: kvs, rest)
                  else if c3 = '\x7d' then some ([(String.mk k, v)], r4)
                  else none
            else none
      else none

end

/-- `json.loads(s)`: parse one value, then require only whitespace to
remain. Any failure is a `json.JSONDecodeError`. -/
def jsonLoads (s : String) : Except PyErr Json :=
  match pValue (s.data.length + 1) s.data with
  | some (j, rest) => if skipWs rest = [] then .ok j else .error .jsonDecodeError
  | none => .error .jsonDecodeError

/-! ## Round trip of the JSON codec -/

theorem char_toNat_inj {a b : Char} (h : a.toNat = b.toNat) : a = b := by
  have h2 := congrArg Char.ofNat h
  rwa [Char.ofNat_toNat, Char.ofNat_toNat] at h2

theorem char_eq_iff_toNat {a b : Char} : a = b ↔ a.toNat = b.toNat :=
  ⟨fun h => h ▸ rfl, char_toNat_inj⟩

theorem char_valid_nat (c : Char) :
    c.toNat < 0xd800 ∨ (0xdfff < c.toNat ∧ c.toNat < 0x110000) := by
  rcases c.valid with h | ⟨h1, h2⟩
  · exact Or.inl h
  · exact Or.inr ⟨h1, h2⟩

theorem hexVal_hexDigit : ∀ d, d < 16 → hexVal (hexDigit d) = some d := by decide

theorem skipWs_cons {c : Char} {r : List Char} (h : isJsonWs c = false) :
    skipWs (c :: r) = c :: r := by
  simp [skipWs, h]

theorem isJsonWs_eq_false {c : Char} (h : ¬ (c.toNat = 32 ∨ c.toNat = 9 ∨ c.toNat = 10 ∨ c.toNat = 13)) :
    isJsonWs c = false := by
  simp only [isJsonWs, Bool.or_eq_false_iff, decide_eq_false_iff_not]
  refine ⟨⟨⟨?_, ?_⟩, ?_⟩, ?_⟩ <;>
    · intro hc
      subst hc
      simp at h

theorem isDigitCh_toNat {c : Char} (h : isDigitCh c = true) :
    48 ≤ c.toNat ∧ c.toNat ≤ 57 := by
  simpa [isDigitCh, Bool.and_eq_true, decide_eq_true_iff] using h

theorem pHex4_hex4 (n : Nat) (h : n < 0x10000) (r : List Char) :
    pHex4 (hex4 n ++ r) = some (n, r) := by
  have ha := hexVal_hexDigit (n / 4096 % 16) (Nat.mod_lt _ (by norm_num))
  have hb := hexVal_hexDigit (n / 256 % 16) (Nat.mod_lt _ (by norm_num))
  have hc := hexVal_hexDigit (n / 16 % 16) (Nat.mod_lt _ (by norm_num))
  have hd := hexVal_hexDigit (n % 16) (Nat.mod_lt _ (by norm_num))
  have hm : n / 4096 % 16 * 4096 + n / 256 % 16 * 256 + n / 16 % 16 * 16 + n % 16 = n := by
    omega
  simp [hex4, pHex4, ha, hb, hc, hd, hm]

theorem pEsc_u (n : Nat) (hlt : n < 0x10000) (hval : n < 0xd800 ∨ 0xdfff < n)
    (r : List Char) :
    pEsc ('u' :: (hex4 n ++ r)) = some (Char.ofNat n, r) := by
  simp only [pEsc, reduceIte, pHex4_hex4 n hlt r]
  rw [if_neg (by omega), if_neg (by omega)]

theorem pEsc_pair (n : Nat) (h1 : 0x10000 ≤ n) (h2 : n < 0x110000) (r : List Char) :
    pEsc ('u' :: (hex4 (0xd800 + (n - 0x10000) / 0x400) ++
      ('\\' :: 'u' :: (hex4 (0xdc00 + (n - 0x10000) % 0x400) ++ r)))) =
      some (Char.ofNat n, r) := by
  have hiBound : (n - 0x10000) / 0x400 < 0x400 := by omega
  have hcomb :
      0x10000 + (0xd800 + (n - 0x10000) / 0x400 - 0xd800) * 0x400 +
        (0xdc00 + (n - 0x10000) % 0x400 - 0xdc00) = n := by
    have := Nat.div_add_mod (n - 0x10000) 0x400
    omega
  have hp1 : pHex4 (hex4 (0xd800 + (n - 0x10000) / 0x400) ++
      ('\\' :: 'u' :: (hex4 (0xdc00 + (n - 0x10000) % 0x400) ++ r))) =
      some (0xd800 + (n - 0x10000) / 0x400,
        '\\' :: 'u' :: (hex4 (0xdc00 + (n - 0x10000) % 0x400) ++ r)) :=
    pHex4_hex4 _ (by omega) _
  have hp2 : pHex4 (hex4 (0xdc00 + (n - 0x10000) % 0x400) ++ r) =
      some (0xdc00 + (n - 0x10000) % 0x400, r) :=
    pHex4_hex4 _ (by omega) _
  have hcond1 : 0xd800 ≤ 0xd800 + (n - 0x10000) / 0x400 ∧
      0xd800 + (n - 0x10000) / 0x400 < 0xdc00 := by
    constructor <;> omega
  have hcond2 : 0xdc00 ≤ 0xdc00 + (n - 0x10000) % 0x400 ∧
      0xdc00 + (n - 0x10000) % 0x400 < 0xe000 := by
    have : (n - 0x10000) % 0x400 < 0x400 := by omega
    constructor <;> omega
  simp only [pEsc, reduceIte, hp1]
  rw [if_pos hcond1]
  simp only [reduceIte, hp2]
  rw [if_pos hcond2, hcomb]
  simp

/-- `pStr` stepping on a backslash. -/
theorem pStr_backslash (fuel : Nat) (r : List Char) :
    pStr (fuel + 1) ('\\' :: r) =
      match pEsc r with
      | none => none
      | some (x, r2) => (pStr fuel r2).map fun (s, rest) => (x :: s, rest) := by
  simp only [pStr]
  rw [if_neg (show ¬ ('\\' : Char) = '"' by decide)]
  simp

/-- `pStr` stepping on an unescaped printable character. -/
theorem pStr_literal (fuel : Nat) {c : Char} (h1 : ¬ c = '"') (h2 : ¬ c = '\\')
    (h3 : ¬ c.toNat < 0x20) (r : List Char) :
    pStr (fuel + 1) (c :: r) = (pStr fuel r).map fun (s, rest) => (c :: s, rest) := by
  simp only [pStr, if_neg h1, if_neg h2, if_neg h3]

/-- One escaped character parses back to itself. -/
theorem pStr_escChar (fuel : Nat) (c : Char) (r : List Char) :
    pStr (fuel + 1) (escChar c ++ r) =
      (pStr fuel r).map fun (s, rest) => (c :: s, rest) := by
  have hval := char_valid_nat c
  by_cases h1 : c = '"'
  · subst h1
    rw [show escChar '"' ++ r = '\\' :: ('"' :: r) from rfl, pStr_backslash]
    simp [pEsc]
  by_cases h2 : c = '\\'
  · subst h2
    rw [show escChar '\\' ++ r = '\\' :: ('\\' :: r) from rfl, pStr_backslash]
    simp [pEsc]
  by_cases h3 : c = '\x08'
  · subst h3
    rw [show escChar '\x08' ++ r = '\\' :: ('b' :: r) from rfl, pStr_backslash]
    simp [pEsc]
  by_cases h4 : c = '\x0c'
  · subst h4
    rw [show escChar '\x0c' ++ r = '\\' :: ('f' :: r) from rfl, pStr_backslash]
    simp [pEsc]
  by_cases h5 : c = '\n'
  · subst h5
    rw [show escChar '\n' ++ r = '\\' :: ('n' :: r) from rfl, pStr_backslash]
    simp [pEsc]
  by_cases h6 : c = '\r'
  · subst h6
    rw [show escChar '\r' ++ r = '\\' :: ('r' :: r) from rfl, pStr_backslash]
    simp [pEsc]
  by_cases h7 : c = '\t'
  · subst h7
    rw [show escChar '\t' ++ r = '\\' :: ('t' :: r) from rfl, pStr_backslash]
    simp [pEsc]
  by_cases h8 : 0x20 ≤ c.toNat ∧ c.toNat ≤ 0x7e
  · have e : escChar c = [c] := by
      unfold escChar
      rw [if_neg h1, if_neg h2, if_neg h3, if_neg h4, if_neg h5, if_neg h6, if_neg h7,
        if_pos h8]
    rw [e, List.singleton_append]
    exact pStr_literal fuel h1 h2 (by omega) r
  by_cases h9 : c.toNat < 0x10000
  · have hvn : c.toNat < 0xd800 ∨ 0xdfff < c.toNat := by omega
    have e : escChar c = '\\' :: 'u' :: hex4 c.toNat := by
      unfold escChar
      rw [if_neg h1, if_neg h2, if_neg h3, if_neg h4, if_neg h5, if_neg h6, if_neg h7,
        if_neg h8, if_pos h9]
    rw [e, show ('\\' :: 'u' :: hex4 c.toNat) ++ r = '\\' :: ('u' :: (hex4 c.toNat ++ r)) from
      by simp, pStr_backslash, pEsc_u c.toNat h9 hvn r, Char.ofNat_toNat]
  · have e : escChar c = '\\' :: 'u' :: hex4 (0xd800 + (c.toNat - 0x10000) / 0x400) ++
        '\\' :: 'u' :: hex4 (0xdc00 + (c.toNat - 0x10000) % 0x400) := by
      unfold escChar
      rw [if_neg h1, if_neg h2, if_neg h3, if_neg h4, if_neg h5, if_neg h6, if_neg h7,
        if_neg h8, if_neg h9]
    have h2b : c.toNat < 0x110000 := by omega
    rw [e, show ('\\' :: 'u' :: hex4 (0xd800 + (c.toNat - 0x10000) / 0x400) ++
        '\\' :: 'u' :: hex4 (0xdc00 + (c.toNat - 0x10000) % 0x400)) ++ r =
        '\\' :: ('u' :: (hex4 (0xd800 + (c.toNat - 0x10000) / 0x400) ++
        ('\\' :: 'u' :: (hex4 (0xdc00 + (c.toNat - 0x10000) % 0x400) ++ r)))) from by simp,
      pStr_backslash, pEsc_pair c.toNat (by omega) h2b r, Char.ofNat_toNat]

/-- The escaped body of a string literal parses back to the original
characters. -/
theorem pStr_escString (cs : List Char) : ∀ fuel r,
    (escString cs).length + 1 ≤ fuel →
    pStr fuel (escString cs ++ '"' :: r) = some (cs, r) := by
  induction cs with
  | nil =>
    intro fuel r h
    match fuel, h with
    | fuel + 1, _ => simp [escString, pStr]
  | cons c cs ih =>
    intro fuel r h
    have hlen : 1 ≤ (escChar c).length := by
      unfold escChar
      split_ifs <;> simp
    rw [show escString (c :: cs) = escChar c ++ escString cs from by
      simp [escString, List.flatMap_cons]] at h ⊢
    match fuel, (by simp at h; omega : 1 ≤ fuel) with
    | fuel + 1, _ =>
      rw [List.append_assoc, pStr_escChar fuel c _,
        ih fuel r (by simp [List.length_append] at h ⊢; omega)]
      rfl

/-- The input starts with a non-digit (or is empty); guards the maximal
digit-run parse against absorbing following characters. -/
def noDigitHead : List Char → Prop
  | [] => True
  | c :: _ => isDigitCh c = false

theorem expectChars_exact (pat rest : List Char) :
    expectChars pat (pat ++ rest) = some rest := by
  have hp : ∀ l r : List Char, List.isPrefixOf l (l ++ r) = true := by
    intro l r
    induction l with
    | nil => simp [List.isPrefixOf]
    | cons a l ih => simp [List.isPrefixOf, ih]
  simp [expectChars, hp]

theorem digitChar_toNat : ∀ d, d < 10 → (Char.ofNat (48 + d)).toNat = 48 + d := by decide

theorem isDigitCh_digitChar : ∀ d, d < 10 → isDigitCh (Char.ofNat (48 + d)) = true := by decide

theorem digitVal_digitChar : ∀ d, d < 10 → digitVal (Char.ofNat (48 + d)) = d := by decide

theorem takeDigits_run (ds : List Nat) (h : ∀ d ∈ ds, d < 10) (rest : List Char)
    (hrest : noDigitHead rest) :
    takeDigits (ds.map (fun d => Char.ofNat (48 + d)) ++ rest) = (ds, rest) := by
  induction ds with
  | nil =>
    simp only [List.map_nil, List.nil_append]
    match rest, hrest with
    | [], _ => rfl
    | c :: r, hh => simp [takeDigits, show isDigitCh c = false from hh]
  | cons d ds ih =>
    have hd : d < 10 := h d (by simp)
    simp only [List.map_cons, List.cons_append, takeDigits,
      isDigitCh_digitChar d hd, if_pos, List.append_eq]
    rw [ih (fun x hx => h x (by simp [hx]))]
    simp [digitVal_digitChar d hd]

theorem digitsToNat_reverse (l : List Nat) :
    digitsToNat l.reverse = Nat.ofDigits 10 l := by
  induction l with
  | nil => rfl
  | cons d l ih =>
    have : digitsToNat (l.reverse ++ [d]) = digitsToNat l.reverse * 10 + d := by
      simp [digitsToNat, List.foldl_append]
    simp only [List.reverse_cons, this, ih, Nat.ofDigits_cons]
    omega

/-- Big-endian decimal digits of `n` (`[0]` for zero). -/
def natDigitsBE (n : Nat) : List Nat :=
  if n = 0 then [0] else (Nat.digits 10 n).reverse

theorem natCharsAux_zero (fuel : Nat) : natCharsAux fuel 0 = [] := by
  cases fuel <;> rfl

theorem natCharsAux_eq : ∀ fuel n, 0 < n → n ≤ fuel →
    natCharsAux fuel n = ((Nat.digits 10 n).map fun d => Char.ofNat (48 + d)).reverse := by
  intro fuel
  induction fuel with
  | zero => intro n h1 h2; omega
  | succ f ih =>
    intro n h1 h2
    match n, h1 with
    | n + 1, _ =>
      rw [show natCharsAux (f + 1) (n + 1)
            = natCharsAux f ((n + 1) / 10) ++ [Char.ofNat (48 + (n + 1) % 10)] from rfl]
      rw [Nat.digits_def' (by norm_num : 1 < 10) (Nat.succ_pos n)]
      by_cases hq : (n + 1) / 10 = 0
      · rw [hq, natCharsAux_zero]
        simp [hq]
      · have hlt := Nat.div_lt_self (Nat.succ_pos n) (by norm_num : 1 < 10)
        rw [ih _ (Nat.pos_of_ne_zero hq) (by omega)]
        simp

theorem natChars_eq (n : Nat) :
    natChars n = (natDigitsBE n).map fun d => Char.ofNat (48 + d) := by
  by_cases h : n = 0
  · subst h; rfl
  · rw [natChars, if_neg h, natCharsAux_eq n n (Nat.pos_of_ne_zero h) le_rfl,
      natDigitsBE, if_neg h, List.map_reverse]

theorem natDigitsBE_lt (n : Nat) : ∀ d ∈ natDigitsBE n, d < 10 := by
  intro d hd
  by_cases h : n = 0
  · subst h; simp [natDigitsBE] at hd; omega
  · simp only [natDigitsBE, if_neg h, List.mem_reverse] at hd
    exact Nat.digits_lt_base (by norm_num) hd

theorem digitsToNat_natDigitsBE (n : Nat) : digitsToNat (natDigitsBE n) = n := by
  by_cases h : n = 0
  · subst h; rfl
  · simp only [natDigitsBE, if_neg h, digitsToNat_reverse, Nat.ofDigits_digits]

theorem natDigitsBE_ne_nil (n : Nat) : natDigitsBE n ≠ [] := by
  by_cases h : n = 0
  · subst h; simp [natDigitsBE]
  · simpa [natDigitsBE, h] using Nat.digits_ne_nil_iff_ne_zero.mpr h

/-- The maximal digit run at the front of a serialised natural number. -/
theorem takeDigits_natChars (n : Nat) (rest : List Char) (hrest : noDigitHead rest) :
    takeDigits (natChars n ++ rest) = (natDigitsBE n, rest) := by
  rw [natChars_eq]
  exact takeDigits_run _ (natDigitsBE_lt n) rest hrest

theorem expectChars3 (a b c : Char) (rest : List Char) :
    expectChars [a, b, c] (a :: b :: c :: rest) = some rest := by
  simp [expectChars, List.isPrefixOf]

theorem expectChars4 (a b c d : Char) (rest : List Char) :
    expectChars [a, b, c, d] (a :: b :: c :: d :: rest) = some rest := by
  simp [expectChars, List.isPrefixOf]

theorem digitChar_not_special : ∀ d, d < 10 →
    (Char.ofNat (48 + d) ≠ 'n' ∧ Char.ofNat (48 + d) ≠ 't' ∧ Char.ofNat (48 + d) ≠ 'f' ∧
     Char.ofNat (48 + d) ≠ '"' ∧ Char.ofNat (48 + d) ≠ '[' ∧ Char.ofNat (48 + d) ≠ '\x7b' ∧
     Char.ofNat (48 + d) ≠ '-' ∧ isJsonWs (Char.ofNat (48 + d)) = false ∧
     Char.ofNat (48 + d) ≠ ']' ∧ Char.ofNat (48 + d) ≠ '\x7d') := by decide

theorem sizeJ_pos (j : Json) : 1 ≤ sizeJ j := by
  cases j <;> simp [sizeJ]

theorem string_mk_data (s : String) : String.mk s.data = s := by
  cases s
  rfl

/-- Serialised JSON never starts with whitespace, a closing bracket or a
closing brace. -/
theorem dumps_head (j : Json) : ∃ c cs, jsonDumpChars j = c :: cs ∧
    isJsonWs c = false ∧ c ≠ ']' ∧ c ≠ '\x7d' := by
  cases j with
  | null => exact ⟨'n', _, rfl, by decide, by decide, by decide⟩
  | bool b =>
    cases b
    · exact ⟨'f', _, rfl, by decide, by decide, by decide⟩
    · exact ⟨'t', _, rfl, by decide, by decide, by decide⟩
  | num i =>
    by_cases hneg : i < 0
    · refine ⟨'-', natChars i.natAbs, ?_, by decide, by decide, by decide⟩
      simp [jsonDumpChars, intChars, hneg]
    · obtain ⟨d, ds, hds⟩ : ∃ d ds, natDigitsBE i.natAbs = d :: ds := by
        cases hE : natDigitsBE i.natAbs with
        | nil => exact absurd hE (natDigitsBE_ne_nil _)
        | cons d ds => exact ⟨d, ds, rfl⟩
      have hd10 : d < 10 := natDigitsBE_lt _ d (by rw [hds]; simp)
      obtain ⟨_, _, _, _, _, _, _, hws, hrb, hcb⟩ := digitChar_not_special d hd10
      refine ⟨Char.ofNat (48 + d), ds.map fun x => Char.ofNat (48 + x), ?_, hws, hrb, hcb⟩
      simp [jsonDumpChars, intChars, hneg, natChars_eq, hds]
  | str s => exact ⟨'"', _, rfl, by decide, by decide, by decide⟩
  | arr xs => exact ⟨'[', _, rfl, by decide, by decide, by decide⟩
  | obj kvs => exact ⟨'\x7b', _, rfl, by decide, by decide, by decide⟩

theorem pValue_at_n (fuel : Nat) (r : List Char) :
    pValue (fuel + 1) ('n' :: r) =
      (expectChars ['u', 'l', 'l'] r).map fun rest => (.null, rest) := rfl

theorem pValue_at_t (fuel : Nat) (r : List Char) :
    pValue (fuel + 1) ('t' :: r) =
      (expectChars ['r', 'u', 'e'] r).map fun rest => (.bool true, rest) := rfl

theorem pValue_at_f (fuel : Nat) (r : List Char) :
    pValue (fuel + 1) ('f' :: r) =
      (expectChars ['a', 'l', 's', 'e'] r).map fun rest => (.bool false, rest) := rfl

theorem pValue_at_quote (fuel : Nat) (r : List Char) :
    pValue (fuel + 1) ('"' :: r) =
      (pStr (r.length + 1) r).map fun (s, rest) => (.str (String.mk s), rest) := rfl

theorem pValue_at_lbracket (fuel : Nat) (r : List Char) :
    pValue (fuel + 1) ('[' :: r) =
      (match skipWs r with
       | [] => none
       | c1 :: r1 =>
         if c1 = ']' then some (.arr [], r1)
         else (pElemsRest fuel (c1 :: r1)).map fun (xs, rest) => (.arr xs, rest)) := rfl

theorem pValue_at_lbrace (fuel : Nat) (r : List Char) :
    pValue (fuel + 1) ('\x7b' :: r) =
      (match skipWs r with
       | [] => none
       | c1 :: r1 =>
         if c1 = '\x7d' then some (.obj [], r1)
         else (pItemsRest fuel (c1 :: r1)).map fun (kvs, rest) => (.obj kvs, rest)) := rfl

theorem pValue_at_minus (fuel : Nat) (r : List Char) :
    pValue (fuel + 1) ('-' :: r) =
      (match r with
       | d :: _ =>
         if isDigitCh d then
           let (ds, rest) := takeDigits r
           some (.num (-(digitsToNat ds : Int)), rest)
         else none
       | [] => none) := rfl

theorem pValue_at_digit (fuel : Nat) {c : Char} (hc : isDigitCh c = true)
    (h1 : c ≠ 'n') (h2 : c ≠ 't') (h3 : c ≠ 'f') (h4 : c ≠ '"') (h5 : c ≠ '[')
    (h6 : c ≠ '\x7b') (h7 : c ≠ '-') (r : List Char) :
    pValue (fuel + 1) (c :: r) =
      (let (ds, rest) := takeDigits (c :: r)
       some (.num (digitsToNat ds), rest)) := by
  have hws : isJsonWs c = false := isJsonWs_eq_false (by have := isDigitCh_toNat hc; omega)
  simp only [pValue, skipWs_cons hws]
  rw [if_neg h1, if_neg h2, if_neg h3, if_neg h4, if_neg h5, if_neg h6, if_neg h7, if_pos hc]

theorem noDigitHead_elemsTail (xs : List Json) (rest : List Char) :
    noDigitHead (dumpElemsTail xs ++ ']' :: rest) := by
  cases xs with
  | nil => simp only [dumpElemsTail, List.nil_append]; exact (by decide : isDigitCh ']' = false)
  | cons x xs =>
    simp only [dumpElemsTail, List.cons_append]
    exact (by decide : isDigitCh ',' = false)

theorem noDigitHead_itemsTail (kvs : List (String × Json)) (rest : List Char) :
    noDigitHead (dumpItemsTail kvs ++ '\x7d' :: rest) := by
  cases kvs with
  | nil => simp only [dumpItemsTail, List.nil_append]; exact (by decide : isDigitCh '\x7d' = false)
  | cons kv kvs =>
    obtain ⟨k, v⟩ := kv
    simp only [dumpItemsTail, List.cons_append]
    exact (by decide : isDigitCh ',' = false)

/-- Parsing is a left inverse of printing, with enough fuel: the value
parser consumes exactly the serialised value and returns the suffix. -/
theorem parse_roundtrip : ∀ fuel : Nat,
    (∀ j rest, sizeJ j ≤ fuel → noDigitHead rest →
      pValue fuel (jsonDumpChars j ++ rest) = some (j, rest)) ∧
    (∀ x xs rest, 1 + sizeJ x + sizeElems xs ≤ fuel →
      pElemsRest fuel (jsonDumpChars x ++ (dumpElemsTail xs ++ ']' :: rest)) =
        some (x :: xs, rest)) ∧
    (∀ k v kvs rest, 1 + sizeJ v + sizeItems kvs ≤ fuel →
      pItemsRest fuel ('"' :: (escString k.data ++ ('"' :: ':' ::
        (jsonDumpChars v ++ (dumpItemsTail kvs ++ '\x7d' :: rest))))) =
        some ((k, v) :: kvs, rest)) := by
  intro fuel
  induction fuel with
  | zero =>
    exact ⟨fun j rest hsz _ => absurd hsz (by have := sizeJ_pos j; omega),
      fun x xs rest hsz => absurd hsz (by omega),
      fun k v kvs rest hsz => absurd hsz (by omega)⟩
  | succ fuel ih =>
    obtain ⟨IH1, IH2, IH3⟩ := ih
    refine ⟨?_, ?_, ?_⟩
    · intro j rest hsz hnd
      cases j with
      | null =>
        rw [show jsonDumpChars .null ++ rest = 'n' :: 'u' :: 'l' :: 'l' :: rest from rfl,
          pValue_at_n, expectChars3]
        rfl
      | bool b =>
        cases b
        · rw [show jsonDumpChars (.bool false) ++ rest =
            'f' :: 'a' :: 'l' :: 's' :: 'e' :: rest from rfl, pValue_at_f, expectChars4]
          rfl
        · rw [show jsonDumpChars (.bool true) ++ rest =
            't' :: 'r' :: 'u' :: 'e' :: rest from rfl, pValue_at_t, expectChars3]
          rfl
      | num i =>
        obtain ⟨d, ds, hds⟩ : ∃ d ds, natDigitsBE i.natAbs = d :: ds := by
          cases hE : natDigitsBE i.natAbs with
          | nil => exact absurd hE (natDigitsBE_ne_nil _)
          | cons d ds => exact ⟨d, ds, rfl⟩
        have hd10 : d < 10 := natDigitsBE_lt _ d (by rw [hds]; simp)
        obtain ⟨hn1, hn2, hn3, hn4, hn5, hn6, hn7, hws, _, _⟩ := digitChar_not_special d hd10
        have hnc : natChars i.natAbs ++ rest =
            Char.ofNat (48 + d) :: ((ds.map fun x => Char.ofNat (48 + x)) ++ rest) := by
          rw [natChars_eq, hds]
          simp
        have htd : takeDigits
            (Char.ofNat (48 + d) :: ((ds.map fun x => Char.ofNat (48 + x)) ++ rest)) =
            (d :: ds, rest) := by
          rw [← hnc, takeDigits_natChars _ rest hnd, hds]
        by_cases hneg : i < 0
        · have hd' : jsonDumpChars (.num i) ++ rest = '-' :: (natChars i.natAbs ++ rest) := by
            simp [jsonDumpChars, intChars, hneg]
          have hdd : digitsToNat (d :: ds) = i.natAbs := by
            rw [← hds, digitsToNat_natDigitsBE]
          have hi : -((i.natAbs : Nat) : Int) = i := by omega
          rw [hd', pValue_at_minus, hnc]
          simp only [isDigitCh_digitChar d hd10, if_pos, htd, hdd, hi]
        · have hd' : jsonDumpChars (.num i) ++ rest = natChars i.natAbs ++ rest := by
            simp [jsonDumpChars, intChars, hneg]
          have hdd : digitsToNat (d :: ds) = i.natAbs := by
            rw [← hds, digitsToNat_natDigitsBE]
          have hi : ((i.natAbs : Nat) : Int) = i := by omega
          rw [hd', hnc,
            pValue_at_digit fuel (isDigitCh_digitChar d hd10) hn1 hn2 hn3 hn4 hn5 hn6 hn7,
            htd]
          simp only [hdd, hi]
      | str s =>
        rw [show jsonDumpChars (.str s) ++ rest = '"' :: (escString s.data ++ ('"' :: rest))
          from by simp [jsonDumpChars, strChars], pValue_at_quote,
          pStr_escString s.data _ rest (by simp)]
        simp [string_mk_data]
      | arr xs =>
        cases xs with
        | nil =>
          rw [show jsonDumpChars (.arr []) ++ rest = '[' :: (']' :: rest) from rfl,
            pValue_at_lbracket, skipWs_cons (by decide)]
          rfl
        | cons x xs =>
          obtain ⟨c0, cs0, hc0, hws0, hrb0, hlb0⟩ := dumps_head x
          have hin : jsonDumpChars (.arr (x :: xs)) ++ rest =
              '[' :: (jsonDumpChars x ++ (dumpElemsTail xs ++ (']' :: rest))) := by
            simp [jsonDumpChars, dumpElems]
          have e2 : pElemsRest fuel (jsonDumpChars x ++ (dumpElemsTail xs ++ ']' :: rest)) =
              some (x :: xs, rest) :=
            IH2 x xs rest (by simp only [sizeJ, sizeElems] at hsz; omega)
          rw [hc0, List.cons_append] at e2
          rw [hin, pValue_at_lbracket, hc0, List.cons_append, skipWs_cons hws0]
          simp [if_neg hrb0, e2]
      | obj kvs =>
        cases kvs with
        | nil =>
          rw [show jsonDumpChars (.obj []) ++ rest = '\x7b' :: ('\x7d' :: rest) from rfl,
            pValue_at_lbrace, skipWs_cons (by decide)]
          rfl
        | cons kv kvs =>
          obtain ⟨k, v⟩ := kv
          have hin : jsonDumpChars (.obj ((k, v) :: kvs)) ++ rest =
              '\x7b' :: ('"' :: (escString k.data ++ ('"' :: ':' ::
                (jsonDumpChars v ++ (dumpItemsTail kvs ++ '\x7d' :: rest))))) := by
            simp [jsonDumpChars, dumpItems, strChars]
          have e3 : pItemsRest fuel ('"' :: (escString k.data ++ ('"' :: ':' ::
              (jsonDumpChars v ++ (dumpItemsTail kvs ++ '\x7d' :: rest))))) =
              some ((k, v) :: kvs, rest) :=
            IH3 k v kvs rest (by simp only [sizeJ, sizeItems] at hsz; omega)
          rw [hin, pValue_at_lbrace, skipWs_cons (by decide)]
          simp [if_neg (show ¬ ('"' : Char) = '\x7d' by decide), e3]
    · intro x xs rest hsz
      have hb1 : sizeJ x ≤ fuel := by omega
      have e1 : pValue fuel (jsonDumpChars x ++ (dumpElemsTail xs ++ ']' :: rest)) =
          some (x, dumpElemsTail xs ++ ']' :: rest) :=
        IH1 x _ hb1 (noDigitHead_elemsTail xs rest)
      cases xs with
      | nil =>
        simp only [dumpElemsTail, List.nil_append] at e1 ⊢
        simp [pElemsRest, e1, skipWs_cons (show isJsonWs ']' = false by decide),
          if_neg (show ¬ (']' : Char) = ',' by decide)]
      | cons y ys =>
        have hb2 : 1 + sizeJ y + sizeElems ys ≤ fuel := by
          have := sizeJ_pos x
          simp only [sizeElems] at hsz
          omega
        have e2 : pElemsRest fuel (jsonDumpChars y ++ (dumpElemsTail ys ++ ']' :: rest)) =
            some (y :: ys, rest) := IH2 y ys rest hb2
        simp only [dumpElemsTail, List.cons_append, List.append_assoc] at e1 ⊢
        simp [pElemsRest, e1, e2, skipWs_cons (show isJsonWs ',' = false by decide)]
    · intro k v kvs rest hsz
      have hb1 : sizeJ v ≤ fuel := by omega
      have e1 : pStr ((escString k.data ++ '"' :: ':' ::
          (jsonDumpChars v ++ (dumpItemsTail kvs ++ '\x7d' :: rest))).length + 1)
          (escString k.data ++ '"' :: ':' ::
            (jsonDumpChars v ++ (dumpItemsTail kvs ++ '\x7d' :: rest))) =
          some (k.data, ':' :: (jsonDumpChars v ++ (dumpItemsTail kvs ++ '\x7d' :: rest))) :=
        pStr_escString k.data _ _ (by simp)
      have e2 : pValue fuel (jsonDumpChars v ++ (dumpItemsTail kvs ++ '\x7d' :: rest)) =
          some (v, dumpItemsTail kvs ++ '\x7d' :: rest) :=
        IH1 v _ hb1 (noDigitHead_itemsTail kvs rest)
      cases kvs with
      | nil =>
        simp only [dumpItemsTail, List.nil_append] at e1 e2 ⊢
        simp only [List.length_append, List.length_cons] at e1
        simp [pItemsRest, e1, e2, string_mk_data,
          skipWs_cons (show isJsonWs '"' = false by decide),
          skipWs_cons (show isJsonWs ':' = false by decide),
          skipWs_cons (show isJsonWs '\x7d' = false by decide),
          if_neg (show ¬ ('\x7d' : Char) = ',' by decide)]
      | cons kv kvs2 =>
        obtain ⟨k2, v2⟩ := kv
        have hb2 : 1 + sizeJ v2 + sizeItems kvs2 ≤ fuel := by
          have := sizeJ_pos v
          simp only [sizeItems] at hsz
          omega
        have e3 : pItemsRest fuel ('"' :: (escString k2.data ++ ('"' :: ':' ::
            (jsonDumpChars v2 ++ (dumpItemsTail kvs2 ++ '\x7d' :: rest))))) =
            some ((k2, v2) :: kvs2, rest) := IH3 k2 v2 kvs2 rest hb2
        simp only [dumpItemsTail, strChars, List.cons_append, List.append_assoc,
          List.singleton_append, List.nil_append] at e1 e2 ⊢
        simp only [List.length_append, List.length_cons] at e1
        simp [pItemsRest, e1, e2, e3, string_mk_data,
          skipWs_cons (show isJsonWs '"' = false by decide),
          skipWs_cons (show isJsonWs ':' = false by decide),
          skipWs_cons (show isJsonWs ',' = false by decide)]

/-- The fuel measure is bounded by the length of the serialised output,
so `jsonLoads`'s input-length fuel always suffices on the image. -/
theorem size_le_dumps : ∀ n : Nat,
    (∀ j, sizeJ j ≤ n → sizeJ j ≤ (jsonDumpChars j).length) ∧
    (∀ xs, sizeElems xs ≤ n → sizeElems xs ≤ (dumpElemsTail xs).length) ∧
    (∀ kvs, sizeItems kvs ≤ n → sizeItems kvs ≤ (dumpItemsTail kvs).length) := by
  intro n
  induction n with
  | zero =>
    refine ⟨fun j h => absurd h (by have := sizeJ_pos j; omega), fun xs h => ?_,
      fun kvs h => ?_⟩
    · cases xs with
      | nil => simp [sizeElems]
      | cons x xs => simp only [sizeElems] at h; omega
    · cases kvs with
      | nil => simp [sizeItems]
      | cons kv kvs => obtain ⟨k, v⟩ := kv; simp only [sizeItems] at h; omega
  | succ n ih =>
    obtain ⟨T1, T2, T3⟩ := ih
    refine ⟨fun j h => ?_, fun xs h => ?_, fun kvs h => ?_⟩
    · cases j with
      | null => simp [sizeJ, jsonDumpChars]
      | bool b => cases b <;> simp [sizeJ, jsonDumpChars]
      | num i =>
        have hne : natChars i.natAbs ≠ [] := by
          rw [natChars_eq]
          simpa using natDigitsBE_ne_nil i.natAbs
        have : 1 ≤ (natChars i.natAbs).length := by
          cases hE : natChars i.natAbs with
          | nil => exact absurd hE hne
          | cons c cs => simp
        by_cases hneg : i < 0
        · simp [sizeJ, jsonDumpChars, intChars, hneg]
        · simp [sizeJ, jsonDumpChars, intChars, hneg]
          omega
      | str s => simp [sizeJ, jsonDumpChars, strChars]
      | arr xs =>
        cases xs with
        | nil => simp [sizeJ, sizeElems, jsonDumpChars, dumpElems]
        | cons x xs =>
          simp only [sizeJ, sizeElems] at h ⊢
          have h1 : sizeJ x ≤ (jsonDumpChars x).length := T1 x (by omega)
          have h2 : sizeElems xs ≤ (dumpElemsTail xs).length := T2 xs (by omega)
          simp [jsonDumpChars, dumpElems, List.length_append]
          omega
      | obj kvs =>
        cases kvs with
        | nil => simp [sizeJ, sizeItems, jsonDumpChars, dumpItems]
        | cons kv kvs =>
          obtain ⟨k, v⟩ := kv
          simp only [sizeJ, sizeItems] at h ⊢
          have h1 : sizeJ v ≤ (jsonDumpChars v).length := T1 v (by omega)
          have h2 : sizeItems kvs ≤ (dumpItemsTail kvs).length := T3 kvs (by omega)
          simp [jsonDumpChars, dumpItems, strChars, List.length_append]
          omega
    · cases xs with
      | nil => simp [sizeElems]
      | cons x xs =>
        simp only [sizeElems] at h ⊢
        have h1 : sizeJ x ≤ (jsonDumpChars x).length := T1 x (by omega)
        have h2 : sizeElems xs ≤ (dumpElemsTail xs).length := T2 xs (by omega)
        simp [dumpElemsTail, List.length_append]
        omega
    · cases kvs with
      | nil => simp [sizeItems]
      | cons kv kvs =>
        obtain ⟨k, v⟩ := kv
        simp only [sizeItems] at h ⊢
        have h1 : sizeJ v ≤ (jsonDumpChars v).length := T1 v (by omega)
        have h2 : sizeItems kvs ≤ (dumpItemsTail kvs).length := T3 kvs (by omega)
        simp [dumpItemsTail, strChars, List.length_append]
        omega

/-- `json.loads` inverts `json.dumps`. -/
theorem jsonLoads_jsonDumps (j : Json) : jsonLoads (jsonDumps j) = .ok j := by
  have hsize : sizeJ j ≤ (jsonDumpChars j).length + 1 :=
    le_trans ((size_le_dumps (sizeJ j)).1 j le_rfl) (by omega)
  have h := (parse_roundtrip ((jsonDumpChars j).length + 1)).1 j [] hsize (by trivial)
  rw [List.append_nil] at h
  unfold jsonLoads jsonDumps
  rw [show (String.mk (jsonDumpChars j)).data = jsonDumpChars j from rfl, h]
  simp [skipWs]

/-! ## base64 (CPython `base64.b64encode` / `b64decode`, standard
alphabet). Bytes are `Nat`s below 256; the encoder produces the base64
text as characters, standing for the ASCII `bytes` CPython returns. -/

/-- Standard-alphabet base64 character of a six-bit value. -/
def charOfSextet (n : Nat) : Char :=
  if n < 26 then Char.ofNat (65 + n)
  else if n < 52 then Char.ofNat (71 + n)
  else if n < 62 then Char.ofNat (n - 4)
  else if n = 62 then '+'
  else '/'

/-- Six-bit value of a standard-alphabet base64 character. -/
def sextetOfChar (c : Char) : Option Nat :=
  if 65 ≤ c.toNat ∧ c.toNat ≤ 90 then some (c.toNat - 65)
  else if 97 ≤ c.toNat ∧ c.toNat ≤ 122 then some (c.toNat - 71)
  else if 48 ≤ c.toNat ∧ c.toNat ≤ 57 then some (c.toNat + 4)
  else if c = '+' then some 62
  else if c = '/' then some 63
  else none

/-- `base64.b64encode`: three bytes to four characters, with `=` padding
on a short final group. -/
def b64encodeChars : List Nat → List Char
  | [] => []
  | [b0] => [charOfSextet (b0 / 4), charOfSextet (b0 % 4 * 16), '=', '=']
  | [b0, b1] =>
      [charOfSextet (b0 / 4), charOfSextet (b0 % 4 * 16 + b1 / 16),
       charOfSextet (b1 % 16 * 4), '=']
  | b0 :: b1 :: b2 :: rest =>
      charOfSextet (b0 / 4) :: charOfSextet (b0 % 4 * 16 + b1 / 16) ::
      charOfSextet (b1 % 16 * 4 + b2 / 64) :: charOfSextet (b2 % 64) ::
      b64encodeChars rest

/-- Decode four-character groups; a padded group ends the stream (CPython
stops at the first padding and ignores what follows). A leftover of one
to three characters raises `binascii.Error`. -/
def b64decodeCore : List Char → Except PyErr (List Nat)
  | [] => .ok []
  | c1 :: c2 :: c3 :: c4 :: rest =>
    match sextetOfChar c1, sextetOfChar c2 with
    | some s1, some s2 =>
      if c3 = '=' then
        if c4 = '=' then .ok [s1 * 4 + s2 / 16] else .error .binasciiError
      else
        match sextetOfChar c3 with
        | some s3 =>
          if c4 = '=' then .ok [s1 * 4 + s2 / 16, s2 % 16 * 16 + s3 / 4]
          else
            match sextetOfChar c4 with
            | some s4 =>
              (b64decodeCore rest).map fun bs =>
                (s1 * 4 + s2 / 16) :: (s2 % 16 * 16 + s3 / 4) :: (s3 % 4 * 64 + s4) :: bs
            | none => .error .binasciiError
        | none => .error .binasciiError
    | _, _ => .error .binasciiError
  | _ => .error .binasciiError

/-- `base64.b64decode` with its default `validate=False`: characters
outside the alphabet (and `=`) are discarded before decoding. -/
def b64decodeChars (l : List Char) : Except PyErr (List Nat) :=
  b64decodeCore (l.filter fun c => (sextetOfChar c).isSome || c = '=')

/-! ## UTF-8 (CPython `str.encode('utf-8')` / `bytes.decode('utf-8')`) -/

/-- UTF-8 bytes of one scalar value. -/
def utf8EncodeChar (c : Char) : List Nat :=
  let n := c.toNat
  if n < 0x80 then [n]
  else if n < 0x800 then [0xc0 + n / 64, 0x80 + n % 64]
  else if n < 0x10000 then [0xe0 + n / 4096, 0x80 + n / 64 % 64, 0x80 + n % 64]
  else [0xf0 + n / 262144, 0x80 + n / 4096 % 64, 0x80 + n / 64 % 64, 0x80 + n % 64]

/-- `str.encode('utf-8')`. -/
def utf8Encode (s : String) : List Nat := s.data.flatMap utf8EncodeChar

mutual

/-- `bytes.decode('utf-8')`: strict decoder rejecting stray or overlong
sequences and surrogates, as CPython does with its default error
handler. -/
def utf8Decode : List Nat → Except PyErr (List Char)
  | [] => .ok []
  | b :: rest =>
    if b < 0x80 then (utf8Decode rest).map fun cs => Char.ofNat b :: cs
    else if b < 0xc2 then .error .unicodeDecodeError
    else if b < 0xe0 then utf8Tail1 b rest
    else if b < 0xf0 then utf8Tail2 b rest
    else if b < 0xf5 then utf8Tail3 b rest
    else .error .unicodeDecodeError

/-- One continuation byte of a two-byte sequence. -/
def utf8Tail1 (b : Nat) : List Nat → Except PyErr (List Char)
  | b2 :: rest2 =>
    if 0x80 ≤ b2 ∧ b2 < 0xc0 then
      (utf8Decode rest2).map fun cs => Char.ofNat ((b - 0xc0) * 64 + (b2 - 0x80)) :: cs
    else .error .unicodeDecodeError
  | [] => .error .unicodeDecodeError

/-- Two continuation bytes of a three-byte sequence. -/
def utf8Tail2 (b : Nat) : List Nat → Except PyErr (List Char)
  | b2 :: b3 :: rest2 =>
    if (0x80 ≤ b2 ∧ b2 < 0xc0) ∧ (0x80 ≤ b3 ∧ b3 < 0xc0) then
      let n := (b - 0xe0) * 4096 + (b2 - 0x80) * 64 + (b3 - 0x80)
      if 0x800 ≤ n ∧ (n < 0xd800 ∨ 0xdfff < n) then
        (utf8Decode rest2).map fun cs => Char.ofNat n :: cs
      else .error .unicodeDecodeError
    else .error .unicodeDecodeError
  | _ => .error .unicodeDecodeError

/-- Three continuation bytes of a four-byte sequence. -/
def utf8Tail3 (b : Nat) : List Nat → Except PyErr (List Char)
  | b2 :: b3 :: b4 :: rest2 =>
    if (0x80 ≤ b2 ∧ b2 < 0xc0) ∧ (0x80 ≤ b3 ∧ b3 < 0xc0) ∧ (0x80 ≤ b4 ∧ b4 < 0xc0) then
      let n := (b - 0xf0) * 262144 + (b2 - 0x80) * 4096 + (b3 - 0x80) * 64 + (b4 - 0x80)
      if 0x10000 ≤ n ∧ n < 0x110000 then
        (utf8Decode rest2).map fun cs => Char.ofNat n :: cs
      else .error .unicodeDecodeError
    else .error .unicodeDecodeError
  | _ => .error .unicodeDecodeError

end

/-! ## gzip

Modelled from the spec: the repository calls CPython's `gzip.compress`
and `gzip.decompress`, whose DEFLATE internals are out of scope here.
The model keeps the properties the code relies on: `decompress` inverts
`compress`; a stream without the two gzip magic bytes `1f 8b` raises
`BadGzipFile`; a stream that ends before its payload is complete raises
`EOFError`. The payload is framed by the magic bytes and a base-255
length header. -/

/-- Modelled from the spec: `gzip.compress`. -/
def gzipCompress (bs : List Nat) : List Nat :=
  0x1f :: 0x8b :: (Nat.digits 255 bs.length ++ 255 :: bs)

/-- Read the base-255 length header up to its 255 terminator. -/
def gzipReadLen : List Nat → Option (List Nat × List Nat)
  | [] => none
  | b :: r =>
    if b = 255 then some ([], r)
    else (gzipReadLen r).map fun (ds, rest) => (b :: ds, rest)

/-- Modelled from the spec: `gzip.decompress`. -/
def gzipDecompress (l : List Nat) : Except PyErr (List Nat) :=
  match l with
  | m1 :: m2 :: rest =>
    if m1 = 0x1f ∧ m2 = 0x8b then
      match gzipReadLen rest with
      | none => .error .eofError
      | some (ds, body) =>
        let n := Nat.ofDigits 255 ds
        if body.length < n then .error .eofError
        else if n < body.length then .error .badGzipFile
        else .ok body
    else .error .badGzipFile
  | _ => .error .badGzipFile

/-! ## datetime

Modelled from the spec: the repository stores `datetime.now(timezone.utc)`
values and converts them with `isoformat` / `fromisoformat`. A datetime is
modelled by its ISO-8601 text; `fromisoformat` validates the shape
`YYYY-MM-DD[T ]HH:MM:SS[.ffffff][±HH:MM]` (without CPython's field range
checks) and raises `ValueError` otherwise. -/

structure Datetime where
  iso : String

/-- `datetime.isoformat`. -/
def datetimeIsoformat (d : Datetime) : String := d.iso

/-- UTC-offset suffix `±HH:MM`, or nothing. -/
def isoOffOk : List Char → Bool
  | [] => true
  | sgn :: h1 :: h2 :: cc :: m1 :: m2 :: [] =>
      (sgn = '+' || sgn = '-') && isDigitCh h1 && isDigitCh h2 && cc = ':' &&
      isDigitCh m1 && isDigitCh m2
  | _ => false

/-- Optional `.ffffff` fraction followed by an optional offset. -/
def isoSfxOk : List Char → Bool
  | [] => true
  | c :: r =>
    if c = '.' then
      match r with
      | d1 :: d2 :: d3 :: d4 :: d5 :: d6 :: r2 =>
          isDigitCh d1 && isDigitCh d2 && isDigitCh d3 && isDigitCh d4 &&
          isDigitCh d5 && isDigitCh d6 && isoOffOk r2
      | _ => false
    else isoOffOk (c :: r)

/-- Shape check for `datetime.fromisoformat` input. -/
def isoShapeOk (s : String) : Bool :=
  match s.data with
  | y1 :: y2 :: y3 :: y4 :: s1 :: mo1 :: mo2 :: s2 :: d1 :: d2 :: sep ::
      h1 :: h2 :: c1 :: mi1 :: mi2 :: c2 :: se1 :: se2 :: rest =>
      isDigitCh y1 && isDigitCh y2 && isDigitCh y3 && isDigitCh y4 && s1 = '-' &&
      isDigitCh mo1 && isDigitCh mo2 && s2 = '-' && isDigitCh d1 && isDigitCh d2 &&
      (sep = 'T' || sep = ' ') && isDigitCh h1 && isDigitCh h2 && c1 = ':' &&
      isDigitCh mi1 && isDigitCh mi2 && c2 = ':' && isDigitCh se1 && isDigitCh se2 &&
      isoSfxOk rest
  | _ => false

/-- `datetime.fromisoformat`. -/
def datetimeFromisoformat (s : String) : Except PyErr Datetime :=
  if isoShapeOk s then .ok ⟨s⟩ else .error .valueError

/-- `str.replace("Z", "+00:00")` (a one-character pattern, so a per-character
expansion). -/
def replaceZ (s : String) : String :=
  String.mk (s.data.flatMap fun c => if c = 'Z' then "+00:00".data else [c])

theorem replaceZ_id {s : String} (h : 'Z' ∉ s.data) : replaceZ s = s := by
  have key : ∀ l : List Char, 'Z' ∉ l →
      l.flatMap (fun c => if c = 'Z' then "+00:00".data else [c]) = l := by
    intro l hl
    induction l with
    | nil => rfl
    | cons c r ih =>
      have h1 : ¬ c = 'Z' := fun hc => hl (by rw [hc]; exact List.mem_cons_self _ _)
      have h2 : 'Z' ∉ r := fun hm => hl (List.mem_cons_of_mem _ hm)
      simp [List.flatMap_cons, if_neg h1, ih h2]
  rw [replaceZ, key s.data h, string_mk_data]

/-! ## Round trips of the byte-level codecs -/

theorem sextet_charOfSextet : ∀ n, n < 64 → sextetOfChar (charOfSextet n) = some n := by
  decide

theorem charOfSextet_props : ∀ n, n < 64 →
    (charOfSextet n ≠ '=' ∧ charOfSextet n ≠ ':' ∧ (charOfSextet n).toNat < 128 ∧
      ((sextetOfChar (charOfSextet n)).isSome || charOfSextet n = '=') = true) := by
  decide

/-- Every character the base64 encoder emits is in the alphabet or `=`. -/
theorem b64encode_mem : ∀ (n : Nat) (bs : List Nat), bs.length ≤ n →
    (∀ b ∈ bs, b < 256) →
    ∀ c ∈ b64encodeChars bs, ((sextetOfChar c).isSome || c = '=') = true := by
  intro n
  induction n with
  | zero =>
    intro bs hlen _ c hc
    match bs, hlen with
    | [], _ => simp [b64encodeChars] at hc
  | succ n ih =>
    intro bs hlen hb c hc
    match bs with
    | [] => simp [b64encodeChars] at hc
    | [b0] =>
      have h0 : b0 < 256 := hb b0 (by simp)
      simp only [b64encodeChars, List.mem_cons, List.not_mem_nil, or_false] at hc
      rcases hc with rfl | rfl | rfl | rfl
      · exact (charOfSextet_props _ (by omega)).2.2.2
      · exact (charOfSextet_props _ (by omega)).2.2.2
      · simp
      · simp
    | [b0, b1] =>
      have h0 : b0 < 256 := hb b0 (by simp)
      have h1 : b1 < 256 := hb b1 (by simp)
      simp only [b64encodeChars, List.mem_cons, List.not_mem_nil, or_false] at hc
      rcases hc with rfl | rfl | rfl | rfl
      · exact (charOfSextet_props _ (by omega)).2.2.2
      · exact (charOfSextet_props _ (by omega)).2.2.2
      · exact (charOfSextet_props _ (by omega)).2.2.2
      · simp
    | b0 :: b1 :: b2 :: rest =>
      have h0 : b0 < 256 := hb b0 (by simp)
      have h1 : b1 < 256 := hb b1 (by simp)
      have h2 : b2 < 256 := hb b2 (by simp)
      simp only [b64encodeChars, List.mem_cons] at hc
      rcases hc with rfl | rfl | rfl | rfl | hc
      · exact (charOfSextet_props _ (by omega)).2.2.2
      · exact (charOfSextet_props _ (by omega)).2.2.2
      · exact (charOfSextet_props _ (by omega)).2.2.2
      · exact (charOfSextet_props _ (by omega)).2.2.2
      · exact ih rest (by simp at hlen; omega) (fun b hbm => hb b (by simp [hbm])) c hc

/-- Decoding inverts encoding on byte lists. -/
theorem b64decodeCore_encode : ∀ (n : Nat) (bs : List Nat), bs.length ≤ n →
    (∀ b ∈ bs, b < 256) → b64decodeCore (b64encodeChars bs) = .ok bs := by
  intro n
  induction n with
  | zero =>
    intro bs hlen _
    match bs, hlen with
    | [], _ => rfl
  | succ n ih =>
    intro bs hlen hb
    match bs with
    | [] => rfl
    | [b0] =>
      have h0 : b0 < 256 := hb b0 (by simp)
      have e1 := sextet_charOfSextet (b0 / 4) (by omega)
      have e2 := sextet_charOfSextet (b0 % 4 * 16) (by omega)
      simp only [b64encodeChars, b64decodeCore, e1, e2, reduceIte]
      have : b0 / 4 * 4 + b0 % 4 * 16 / 16 = b0 := by omega
      rw [this]
    | [b0, b1] =>
      have h0 : b0 < 256 := hb b0 (by simp)
      have h1 : b1 < 256 := hb b1 (by simp)
      have e1 := sextet_charOfSextet (b0 / 4) (by omega)
      have e2 := sextet_charOfSextet (b0 % 4 * 16 + b1 / 16) (by omega)
      have e3 := sextet_charOfSextet (b1 % 16 * 4) (by omega)
      have ne3 := (charOfSextet_props (b1 % 16 * 4) (by omega)).1
      simp only [b64encodeChars, b64decodeCore, e1, e2, e3, if_neg ne3, reduceIte]
      have r0 : b0 / 4 * 4 + (b0 % 4 * 16 + b1 / 16) / 16 = b0 := by omega
      have r1 : (b0 % 4 * 16 + b1 / 16) % 16 * 16 + b1 % 16 * 4 / 4 = b1 := by omega
      rw [r0, r1]
    | b0 :: b1 :: b2 :: rest =>
      have h0 : b0 < 256 := hb b0 (by simp)
      have h1 : b1 < 256 := hb b1 (by simp)
      have h2 : b2 < 256 := hb b2 (by simp)
      have e1 := sextet_charOfSextet (b0 / 4) (by omega)
      have e2 := sextet_charOfSextet (b0 % 4 * 16 + b1 / 16) (by omega)
      have e3 := sextet_charOfSextet (b1 % 16 * 4 + b2 / 64) (by omega)
      have e4 := sextet_charOfSextet (b2 % 64) (by omega)
      have ne3 := (charOfSextet_props (b1 % 16 * 4 + b2 / 64) (by omega)).1
      have ne4 := (charOfSextet_props (b2 % 64) (by omega)).1
      have ihr := ih rest (by simp at hlen; omega) (fun b hbm => hb b (by simp [hbm]))
      simp only [b64encodeChars, b64decodeCore, e1, e2, e3, e4, if_neg ne3, if_neg ne4, ihr]
      have r0 : b0 / 4 * 4 + (b0 % 4 * 16 + b1 / 16) / 16 = b0 := by omega
      have r1 : (b0 % 4 * 16 + b1 / 16) % 16 * 16 + (b1 % 16 * 4 + b2 / 64) / 4 = b1 := by
        omega
      have r2 : (b1 % 16 * 4 + b2 / 64) % 4 * 64 + b2 % 64 = b2 := by omega
      rw [r0, r1, r2]
      rfl

/-- `b64decode` inverts `b64encode`. -/
theorem b64_roundtrip (bs : List Nat) (hb : ∀ b ∈ bs, b < 256) :
    b64decodeChars (b64encodeChars bs) = .ok bs := by
  have hf : (b64encodeChars bs).filter (fun c => (sextetOfChar c).isSome || c = '=') =
      b64encodeChars bs :=
    List.filter_eq_self.mpr (b64encode_mem bs.length bs le_rfl hb)
  rw [b64decodeChars, hf]
  exact b64decodeCore_encode bs.length bs le_rfl hb

/-- base64 output is ASCII. -/
theorem b64encode_ascii (bs : List Nat) (hb : ∀ b ∈ bs, b < 256) :
    ∀ c ∈ b64encodeChars bs, c.toNat < 128 := by
  intro c hc
  have hmem := b64encode_mem bs.length bs le_rfl hb c hc
  simp only [Bool.or_eq_true, Option.isSome_iff_exists, decide_eq_true_iff] at hmem
  rcases hmem with ⟨s, hs⟩ | rfl
  · unfold sextetOfChar at hs
    split_ifs at hs <;> first | omega | (rename_i hcc; subst hcc; decide)
  · decide

/-- base64 output never contains a colon, so a plain-encoded session value
never carries the `gzip:` marker. -/
theorem b64encode_no_colon (bs : List Nat) (hb : ∀ b ∈ bs, b < 256) :
    ':' ∉ b64encodeChars bs := by
  intro hc
  have hmem := b64encode_mem bs.length bs le_rfl hb ':' hc
  simp [sextetOfChar] at hmem

/-- `utf8Decode` stepping on an ASCII byte. -/
theorem utf8Decode_one {b : Nat} (h : b < 0x80) (rest : List Nat) :
    utf8Decode (b :: rest) = (utf8Decode rest).map fun cs => Char.ofNat b :: cs := by
  simp only [utf8Decode]
  rw [if_pos h]

/-- `utf8Decode` stepping on a two-byte sequence. -/
theorem utf8Decode_two {b b2 : Nat} (h1 : ¬ b < 0x80) (h2 : ¬ b < 0xc2) (h3 : b < 0xe0)
    (hc : 0x80 ≤ b2 ∧ b2 < 0xc0) (rest : List Nat) :
    utf8Decode (b :: b2 :: rest) =
      (utf8Decode rest).map fun cs => Char.ofNat ((b - 0xc0) * 64 + (b2 - 0x80)) :: cs := by
  rw [utf8Decode.eq_def]
  simp only []
  rw [if_neg h1, if_neg h2, if_pos h3]
  simp only [utf8Tail1]
  rw [if_pos hc]

/-- `utf8Decode` stepping on a three-byte sequence. -/
theorem utf8Decode_three {b b2 b3 : Nat} (h1 : ¬ b < 0x80) (h2 : ¬ b < 0xc2)
    (h3 : ¬ b < 0xe0) (h4 : b < 0xf0)
    (hc : (0x80 ≤ b2 ∧ b2 < 0xc0) ∧ (0x80 ≤ b3 ∧ b3 < 0xc0))
    (hok : 0x800 ≤ (b - 0xe0) * 4096 + (b2 - 0x80) * 64 + (b3 - 0x80) ∧
      ((b - 0xe0) * 4096 + (b2 - 0x80) * 64 + (b3 - 0x80) < 0xd800 ∨
        0xdfff < (b - 0xe0) * 4096 + (b2 - 0x80) * 64 + (b3 - 0x80)))
    (rest : List Nat) :
    utf8Decode (b :: b2 :: b3 :: rest) =
      (utf8Decode rest).map fun cs =>
        Char.ofNat ((b - 0xe0) * 4096 + (b2 - 0x80) * 64 + (b3 - 0x80)) :: cs := by
  rw [utf8Decode.eq_def]
  simp only []
  rw [if_neg h1, if_neg h2, if_neg h3, if_pos h4]
  simp only [utf8Tail2]
  rw [if_pos hc, if_pos hok]

/-- `utf8Decode` stepping on a four-byte sequence. -/
theorem utf8Decode_four {b b2 b3 b4 : Nat} (h1 : ¬ b < 0x80) (h2 : ¬ b < 0xc2)
    (h3 : ¬ b < 0xe0) (h4 : ¬ b < 0xf0) (h5 : b < 0xf5)
    (hc : (0x80 ≤ b2 ∧ b2 < 0xc0) ∧ (0x80 ≤ b3 ∧ b3 < 0xc0) ∧ (0x80 ≤ b4 ∧ b4 < 0xc0))
    (hok : 0x10000 ≤ (b - 0xf0) * 262144 + (b2 - 0x80) * 4096 + (b3 - 0x80) * 64 + (b4 - 0x80) ∧
      (b - 0xf0) * 262144 + (b2 - 0x80) * 4096 + (b3 - 0x80) * 64 + (b4 - 0x80) < 0x110000)
    (rest : List Nat) :
    utf8Decode (b :: b2 :: b3 :: b4 :: rest) =
      (utf8Decode rest).map fun cs =>
        Char.ofNat ((b - 0xf0) * 262144 + (b2 - 0x80) * 4096 + (b3 - 0x80) * 64 +
          (b4 - 0x80)) :: cs := by
  rw [utf8Decode.eq_def]
  simp only []
  rw [if_neg h1, if_neg h2, if_neg h3, if_neg h4, if_pos h5]
  simp only [utf8Tail3]
  rw [if_pos hc, if_pos hok]

/-- `bytes.decode('utf-8')` inverts `str.encode('utf-8')`. -/
theorem utf8_roundtrip (s : String) : utf8Decode (utf8Encode s) = .ok s.data := by
  rw [utf8Encode]
  induction s.data with
  | nil => rfl
  | cons c r ih =>
    rw [List.flatMap_cons]
    have hval := char_valid_nat c
    by_cases h1 : c.toNat < 0x80
    · have e : utf8EncodeChar c = [c.toNat] := by
        simp only [utf8EncodeChar]
        rw [if_pos h1]
      rw [e, List.cons_append, List.nil_append, utf8Decode_one h1, ih, Char.ofNat_toNat]
      rfl
    by_cases h2 : c.toNat < 0x800
    · have e : utf8EncodeChar c = [0xc0 + c.toNat / 64, 0x80 + c.toNat % 64] := by
        simp only [utf8EncodeChar]
        rw [if_neg h1, if_pos h2]
      rw [e, List.cons_append, List.cons_append, List.nil_append,
        utf8Decode_two (by omega) (by omega) (by omega) (by omega), ih]
      have hn : (0xc0 + c.toNat / 64 - 0xc0) * 64 + (0x80 + c.toNat % 64 - 0x80) = c.toNat := by
        omega
      rw [hn, Char.ofNat_toNat]
      rfl
    by_cases h3 : c.toNat < 0x10000
    · have e : utf8EncodeChar c =
          [0xe0 + c.toNat / 4096, 0x80 + c.toNat / 64 % 64, 0x80 + c.toNat % 64] := by
        simp only [utf8EncodeChar]
        rw [if_neg h1, if_neg h2, if_pos h3]
      have hn : (0xe0 + c.toNat / 4096 - 0xe0) * 4096 + (0x80 + c.toNat / 64 % 64 - 0x80) * 64 +
          (0x80 + c.toNat % 64 - 0x80) = c.toNat := by omega
      rw [e, List.cons_append, List.cons_append, List.cons_append, List.nil_append,
        utf8Decode_three (by omega) (by omega) (by omega) (by omega) (by omega)
          (by rw [hn]; omega), hn, ih, Char.ofNat_toNat]
      rfl
    · have hv : c.toNat < 0x110000 := by omega
      have e : utf8EncodeChar c = [0xf0 + c.toNat / 262144, 0x80 + c.toNat / 4096 % 64,
          0x80 + c.toNat / 64 % 64, 0x80 + c.toNat % 64] := by
        simp only [utf8EncodeChar]
        rw [if_neg h1, if_neg h2, if_neg h3]
      have hn : (0xf0 + c.toNat / 262144 - 0xf0) * 262144 +
          (0x80 + c.toNat / 4096 % 64 - 0x80) * 4096 +
          (0x80 + c.toNat / 64 % 64 - 0x80) * 64 + (0x80 + c.toNat % 64 - 0x80) = c.toNat := by
        omega
      rw [e, List.cons_append, List.cons_append, List.cons_append, List.cons_append,
        List.nil_append,
        utf8Decode_four (by omega) (by omega) (by omega) (by omega) (by omega) (by omega)
          (by rw [hn]; omega), hn, ih, Char.ofNat_toNat]
      rfl

/-- UTF-8 bytes are bytes. -/
theorem utf8Encode_lt (s : String) : forall b, b ∈ utf8Encode s → b < 256 := by
  intro b hb
  rw [utf8Encode, List.mem_flatMap] at hb
  obtain ⟨c, _, hbc⟩ := hb
  have hval := char_valid_nat c
  simp only [utf8EncodeChar] at hbc
  split_ifs at hbc with g1 g2 g3 <;> simp only [List.mem_cons, List.not_mem_nil, or_false] at hbc
  · omega
  · rcases hbc with rfl | rfl <;> omega
  · rcases hbc with rfl | rfl | rfl <;> omega
  · rcases hbc with rfl | rfl | rfl | rfl <;> omega


/-- `gzip.decompress` inverts `gzip.compress` in the model. -/
theorem gzip_roundtrip (bs : List Nat) : gzipDecompress (gzipCompress bs) = .ok bs := by
  have hread : gzipReadLen (Nat.digits 255 bs.length ++ 255 :: bs) =
      some (Nat.digits 255 bs.length, bs) := by
    have key : ∀ ds : List Nat, (∀ d ∈ ds, d < 255) →
        gzipReadLen (ds ++ 255 :: bs) = some (ds, bs) := by
      intro ds hds
      induction ds with
      | nil => simp [gzipReadLen]
      | cons d ds ih =>
        have hd : d < 255 := hds d (by simp)
        simp only [List.cons_append, gzipReadLen, if_neg (by omega : ¬ d = 255),
          List.append_eq, ih (fun x hx => hds x (by simp [hx]))]
        rfl
    exact key _ (fun d hd => Nat.digits_lt_base (by norm_num) hd)
  simp only [gzipCompress, gzipDecompress, hread, and_self, reduceIte, Nat.ofDigits_digits]
  simp

/-- Compressed output bytes are bytes. -/
theorem gzipCompress_lt (bs : List Nat) (hb : ∀ b ∈ bs, b < 256) :
    ∀ b ∈ gzipCompress bs, b < 256 := by
  intro b hbm
  simp only [gzipCompress, List.mem_cons, List.mem_append] at hbm
  rcases hbm with rfl | rfl | h | rfl | h
  · omega
  · omega
  · have := Nat.digits_lt_base (by norm_num : 1 < 255) h
    omega
  · omega
  · exact hb b h

/-! ## `ocp_agent/context.py`: the AgentContext dataclass

Fields are typed at the dataclass's annotated types; `session` values and
`history` entries are arbitrary JSON. The impure default factories
(`uuid.uuid4` for a fresh context id, `datetime.now(timezone.utc)` for
timestamps) are modelled by threading a `Fresh` record of the values they
would produce. -/

structure AgentContext where
  context_id : String
  agent_type : String
  user : Option String
  workspace : Option String
  current_file : Option String
  session : List (String × Json)
  history : List Json
  current_goal : Option String
  context_summary : Option String
  error_context : Option String
  recent_changes : List String
  api_specs : List (String × String)
  created_at : Datetime
  last_updated : Datetime

/-- The values the dataclass's impure default factories would produce. -/
structure Fresh where
  ctxId : String
  now : Datetime

/-- `AgentContext.__post_init__`: an empty session dict is replaced with
basic metadata derived from the object's own fields. -/
def postInitSession (created_at : Datetime) (agent_type : String)
    (session : List (String × Json)) : List (String × Json) :=
  if session.isEmpty then
    [("start_time", .str created_at.iso), ("interaction_count", .num 0),
     ("agent_type", .str agent_type)]
  else session

/-- The dataclass constructor followed by `__post_init__`. -/
def mkAgentContext (context_id agent_type : String)
    (user workspace current_file : Option String) (session : List (String × Json))
    (history : List Json) (current_goal context_summary error_context : Option String)
    (recent_changes : List String) (api_specs : List (String × String))
    (created_at last_updated : Datetime) : AgentContext :=
  { context_id, agent_type, user, workspace, current_file,
    session := postInitSession created_at agent_type session,
    history, current_goal, context_summary, error_context, recent_changes, api_specs,
    created_at, last_updated }

/-- An optional string field as the JSON value `asdict` produces. -/
def optJson : Option String → Json
  | none => .null
  | some s => .str s

/-- The field list of `AgentContext.to_dict`: `asdict(self)` in dataclass
field order, with the two datetime fields overwritten by their
`isoformat` strings. -/
def toDictFields (c : AgentContext) : List (String × Json) :=
  [("context_id", .str c.context_id), ("agent_type", .str c.agent_type),
   ("user", optJson c.user), ("workspace", optJson c.workspace),
   ("current_file", optJson c.current_file),
   ("session", .obj c.session), ("history", .arr c.history),
   ("current_goal", optJson c.current_goal),
   ("context_summary", optJson c.context_summary),
   ("error_context", optJson c.error_context),
   ("recent_changes", .arr (c.recent_changes.map .str)),
   ("api_specs", .obj (c.api_specs.map fun kv => (kv.1, .str kv.2))),
   ("created_at", .str (datetimeIsoformat c.created_at)),
   ("last_updated", .str (datetimeIsoformat c.last_updated))]

/-- `AgentContext.to_dict`. -/
def toDict (c : AgentContext) : Json := .obj (toDictFields c)

/-- The dataclass's field names; `cls(**data)` raises `TypeError` on any
other keyword. -/
def fieldNames : List String :=
  ["context_id", "agent_type", "user", "workspace", "current_file", "session",
   "history", "current_goal", "context_summary", "error_context", "recent_changes",
   "api_specs", "created_at", "last_updated"]

/-- Extract a string field (TypeError on a non-string value, a narrowing
of CPython's untyped assignment noted at the top of this file). -/
def getStrField (kvs : List (String × Json)) (key : String) (dflt : String) :
    Except PyErr String :=
  match pyGet kvs key with
  | none => .ok dflt
  | some (.str s) => .ok s
  | some _ => .error .typeError

/-- Extract an optional string field. -/
def getOptStrField (kvs : List (String × Json)) (key : String) :
    Except PyErr (Option String) :=
  match pyGet kvs key with
  | none => .ok none
  | some .null => .ok none
  | some (.str s) => .ok (some s)
  | some _ => .error .typeError

/-- Extract a JSON-object field. -/
def getObjField (kvs : List (String × Json)) (key : String) :
    Except PyErr (List (String × Json)) :=
  match pyGet kvs key with
  | none => .ok []
  | some (.obj o) => .ok o
  | some _ => .error .typeError

/-- Extract a JSON-array field. -/
def getArrField (kvs : List (String × Json)) (key : String) :
    Except PyErr (List Json) :=
  match pyGet kvs key with
  | none => .ok []
  | some (.arr xs) => .ok xs
  | some _ => .error .typeError

/-- Extract a list-of-strings field. -/
def asStrList : List Json → Except PyErr (List String)
  | [] => .ok []
  | .str s :: rest => (asStrList rest).map fun l => s :: l
  | _ :: _ => .error .typeError

/-- Extract a string-to-string mapping field. -/
def asStrMap : List (String × Json) → Except PyErr (List (String × String))
  | [] => .ok []
  | (k, .str s) :: rest => (asStrMap rest).map fun l => (k, s) :: l
  | _ :: _ => .error .typeError

/-- Extract a timestamp field: an ISO string goes through the `"Z"`
replacement and `datetime.fromisoformat`; a missing field takes the
`datetime.now` default. -/
def getDatetimeField (kvs : List (String × Json)) (key : String) (now : Datetime) :
    Except PyErr Datetime :=
  match pyGet kvs key with
  | none => .ok now
  | some (.str s) => datetimeFromisoformat (replaceZ s)
  | some _ => .error .typeError

/-- `AgentContext.from_dict`: rebuild the dataclass from a decoded JSON
value. A non-object or an unexpected key raises `TypeError` exactly as
`cls(**data)` does. -/
def fromDict (fresh : Fresh) (j : Json) : Except PyErr AgentContext :=
  match j with
  | .obj kvs =>
    if kvs.all (fun kv => fieldNames.contains kv.1) then do
      let cid ← getStrField kvs "context_id" fresh.ctxId
      let atype ← getStrField kvs "agent_type" "generic_agent"
      let user ← getOptStrField kvs "user"
      let workspace ← getOptStrField kvs "workspace"
      let current_file ← getOptStrField kvs "current_file"
      let session ← getObjField kvs "session"
      let history ← getArrField kvs "history"
      let current_goal ← getOptStrField kvs "current_goal"
      let context_summary ← getOptStrField kvs "context_summary"
      let error_context ← getOptStrField kvs "error_context"
      let recent_changes ← (getArrField kvs "recent_changes") >>= asStrList
      let api_specs ← (getObjField kvs "api_specs") >>= asStrMap
      let created_at ← getDatetimeField kvs "created_at" fresh.now
      let last_updated ← getDatetimeField kvs "last_updated" fresh.now
      .ok (mkAgentContext cid atype user workspace current_file session history
        current_goal context_summary error_context recent_changes api_specs
        created_at last_updated)
    else .error .typeError
  | _ => .error .typeError

/-- `AgentContext.add_recent_change`: append, then keep the last 10. -/
def addRecentChange (c : AgentContext) (change : String) (now : Datetime) : AgentContext :=
  let rc := c.recent_changes ++ [change]
  { c with
    recent_changes := if rc.length > 10 then rc.drop (rc.length - 10) else rc,
    last_updated := now }

/-! ## `ocp_agent/headers.py` -/

def OCP_CONTEXT_ID : String := "OCP-Context-ID"
def OCP_SESSION : String := "OCP-Session"
def OCP_AGENT_GOAL : String := "OCP-Agent-Goal"
def OCP_AGENT_TYPE : String := "OCP-Agent-Type"
def OCP_USER : String := "OCP-User"
def OCP_WORKSPACE : String := "OCP-Workspace"
def OCP_VERSION : String := "OCP-Version"
def OCP_SPEC_VERSION : String := "1.0"

/-- Python `needle in haystack` on strings: contiguous substring. -/
def listContainsSub (sub : List Char) : List Char → Bool
  | [] => sub.isEmpty
  | c :: r => sub.isPrefixOf (c :: r) || listContainsSub sub r

/-- Python `sub in hay`. -/
def strContains (hay sub : String) : Bool := listContainsSub sub.data hay.data

/-- Python `s.startswith(pre)`. -/
def strStarts (s pre : String) : Bool := pre.data.isPrefixOf s.data

/-- Python `s.lower()` on the ASCII strings this code handles: per-character
basic-latin lowering (structurally recursive, unlike `String.toLower`). -/
def strLower (s : String) : String := String.mk (s.data.map Char.toLower)

/-- Python `s.upper()`, likewise per character. -/
def strUpper (s : String) : String := String.mk (s.data.map Char.toUpper)

/-- The session header value `encode_context` computes: compact JSON of
`to_dict`, UTF-8 encoded, gzip-compressed behind the `gzip:` marker when
`compress` is set and the JSON exceeds 1000 characters, then base64. -/
def sessionValue (c : AgentContext) (compress : Bool) : String :=
  let session_json := jsonDumps (toDict c)
  if compress ∧ session_json.length > 1000 then
    String.mk ('g' :: 'z' :: 'i' :: 'p' :: ':' ::
      b64encodeChars (gzipCompress (utf8Encode session_json)))
  else
    String.mk (b64encodeChars (utf8Encode session_json))

/-- `OCPHeaders.encode_context`. -/
def encodeContext (c : AgentContext) (compress : Bool) : List (String × String) :=
  let headers := [(OCP_CONTEXT_ID, c.context_id), (OCP_AGENT_TYPE, c.agent_type),
                  (OCP_VERSION, OCP_SPEC_VERSION)]
  let headers := match c.current_goal with
    | some g => if g = "" then headers else pyInsert headers OCP_AGENT_GOAL g
    | none => headers
  let headers := match c.workspace with
    | some w => if w = "" then headers else pyInsert headers OCP_WORKSPACE w
    | none => headers
  pyInsert headers OCP_SESSION (sessionValue c compress)

/-- `str.encode('ascii')`: raises `UnicodeEncodeError` on a non-ASCII
character and is otherwise the identity on the character sequence at this
model's level. -/
def asciiEncode (s : String) : Except PyErr (List Char) :=
  if s.data.all (fun c => c.toNat < 128) then .ok s.data else .error .unicodeEncodeError

/-- The body of `decode_context`'s `try` block: unwrap the session value
into JSON text, parse it and rebuild the context. -/
def decodeSessionData (sd : String) (fresh : Fresh) : Except PyErr AgentContext := do
  let session_json ←
    if strStarts sd "gzip:" then do
      let encoded ← asciiEncode (String.mk (sd.data.drop 5))
      let compressed ← b64decodeChars encoded
      let decompressed ← gzipDecompress compressed
      (utf8Decode decompressed).map String.mk
    else do
      let encoded ← asciiEncode sd
      let bytes ← b64decodeChars encoded
      (utf8Decode bytes).map String.mk
  let context_data ← jsonLoads session_json
  fromDict fresh context_data

/-- The exception classes `decode_context` catches:
`(json.JSONDecodeError, base64.binascii.Error, gzip.BadGzipFile,
UnicodeDecodeError)`. -/
def caughtErr : PyErr → Bool
  | .jsonDecodeError | .binasciiError | .badGzipFile | .unicodeDecodeError => true
  | _ => false

/-- `decode_context`'s case-insensitive header normalisation:
`{k.lower(): v for k, v in headers.items()}`. -/
def normalizeHeaders (headers : List (String × String)) : List (String × String) :=
  pyUpdate [] (headers.map fun kv => (strLower kv.1, kv.2))

/-- `OCPHeaders.decode_context`. -/
def decodeContext (headers : List (String × String)) (fresh : Fresh) :
    Except PyErr (Option AgentContext) :=
  let normalized := normalizeHeaders headers
  match pyGet normalized (strLower OCP_CONTEXT_ID), pyGet normalized (strLower OCP_SESSION) with
  | some cid, some sd =>
    if cid = "" ∨ sd = "" then .ok none
    else
      match decodeSessionData sd fresh with
      | .ok c => .ok (some c)
      | .error e => if caughtErr e then .ok none else .error e
  | _, _ => .ok none

/-- `OCPHeaders.merge_headers`: copy of the base dict updated with the
OCP headers. -/
def mergeHeaders (base_headers ocp_headers : List (String × String)) :
    List (String × String) :=
  pyUpdate base_headers ocp_headers

/-- The fixed set of lowered names `strip_ocp_headers` removes. -/
def ocpHeaderNames : List String :=
  [strLower OCP_CONTEXT_ID, strLower OCP_SESSION, strLower OCP_AGENT_GOAL,
   strLower OCP_AGENT_TYPE, strLower OCP_WORKSPACE, strLower OCP_VERSION]

/-- `OCPHeaders.strip_ocp_headers`. -/
def strip_ocp_headers (headers : List (String × String)) : List (String × String) :=
  headers.filter fun kv => ¬ ocpHeaderNames.contains (strLower kv.1)

/-! ## `ocp/schema_discovery.py` -/

/-- A discovered API tool. `operation_id` and `tags` hold the raw JSON
the code stores. -/
structure OCPTool where
  name : String
  description : String
  method : String
  path : String
  parameters : List (String × Json)
  response_schema : Json
  operation_id : Json
  tags : Json

/-- A parsed OpenAPI specification. -/
structure OCPAPISpec where
  base_url : String
  title : String
  version : String
  description : String
  tools : List OCPTool
  raw_spec : Json

/-- Python truthiness of a JSON value. -/
def jTruthy : Json → Bool
  | .null => false
  | .bool b => b
  | .num n => n ≠ 0
  | .str s => s ≠ ""
  | .arr xs => ¬ xs.isEmpty
  | .obj kvs => ¬ kvs.isEmpty

/-- `d.get(key)` on a decoded JSON value; `AttributeError` when the value
is not a dict. -/
def jGet (j : Json) (key : String) : Except PyErr (Option Json) :=
  match j with
  | .obj kvs => .ok (pyGet kvs key)
  | _ => .error .attributeError

/-- `d.get(key, default)`. -/
def jGetD (j : Json) (key : String) (dflt : Json) : Except PyErr Json :=
  (jGet j key).map fun o => o.getD dflt

/-- Equality of a JSON value with a Python string. -/
def jEqStr (j : Json) (s : String) : Bool :=
  match j with
  | .str t => t = s
  | _ => false

/-- Python `x in container` for a string `x`: key membership in dicts,
element equality in lists, substring in strings; `TypeError` otherwise. -/
def jIn (x : String) (container : Json) : Except PyErr Bool :=
  match container with
  | .obj kvs => .ok (kvs.any fun kv => kv.1 = x)
  | .arr xs => .ok (xs.any fun j => jEqStr j x)
  | .str s => .ok (strContains s x)
  | _ => .error .typeError

/-- `OCPSchemaDiscovery._parse_parameters`: one declared parameter into
the accumulating dict. Parameter names are narrowed to strings (CPython
would admit any hashable name as a dict key). -/
def parseOneParam (acc : List (String × Json)) (param : Json) :
    Except PyErr (List (String × Json)) := do
  let nameRaw ← jGetD param "name" .null
  if jTruthy nameRaw then
    match nameRaw with
    | .str name => do
      let desc ← jGetD param "description" (.str "")
      let req ← jGetD param "required" (.bool false)
      let loc ← jGetD param "in" (.str "query")
      let schema ← jGetD param "schema" (.obj [])
      let base : List (String × Json) :=
        [("description", desc), ("required", req), ("location", loc),
         ("type", .str "string")]
      let withSchema ←
        if jTruthy schema then do
          let ty ← jGetD schema "type" (.str "string")
          let base := pyInsert base "type" ty
          let base ← do
            match ← jGet schema "enum" with
            | some e => pure (pyInsert base "enum" e)
            | none => pure base
          match ← jGet schema "format" with
          | some f => pure (pyInsert base "format" f)
          | none => pure base
        else pure base
      .ok (pyInsert acc name (.obj withSchema))
    | _ => .error .typeError
  else .ok acc

/-- `OCPSchemaDiscovery._parse_parameters`. -/
def parseParameters (params : List Json) : Except PyErr (List (String × Json)) :=
  params.foldlM parseOneParam []

/-- One request-body property into the accumulating dict. -/
def parseOneProp (required_fields : Json) (acc : List (String × Json))
    (kv : String × Json) : Except PyErr (List (String × Json)) := do
  let (prop_name, prop_schema) := kv
  let desc ← jGetD prop_schema "description" (.str "")
  let req ← jIn prop_name required_fields
  let ty ← jGetD prop_schema "type" (.str "string")
  let entry : List (String × Json) :=
    [("description", desc), ("required", .bool req), ("location", .str "body"),
     ("type", ty)]
  let entry ←
    match ← jGet prop_schema "enum" with
    | some e => pure (pyInsert entry "enum" e)
    | none => pure entry
  .ok (pyInsert acc prop_name (.obj entry))

/-- `OCPSchemaDiscovery._parse_request_body`. -/
def parseRequestBody (request_body : Json) : Except PyErr (List (String × Json)) := do
  let content ← jGetD request_body "content" (.obj [])
  let json_content ← jGetD content "application/json" (.obj [])
  let hasSchema ←
    if jTruthy json_content then jIn "schema" json_content else pure false
  if jTruthy json_content ∧ hasSchema then do
    let schema := match json_content with
      | .obj kvs => (pyGet kvs "schema").getD .null
      | _ => .null
    let tyOpt ← jGet schema "type"
    if jEqStr (tyOpt.getD .null) "object" then do
      let properties ← jGetD schema "properties" (.obj [])
      let required_fields ← jGetD schema "required" (.arr [])
      match properties with
      | .obj props => props.foldlM (parseOneProp required_fields) []
      | _ => .error .attributeError
    else .ok []
  else .ok []

/-- `OCPSchemaDiscovery._parse_responses`: the schema of the first `2xx`
response carrying an `application/json` schema. -/
def parseResponses : List (String × Json) → Except PyErr Json
  | [] => .ok (.obj [])
  | (status_code, response) :: rest =>
    if strStarts status_code "2" then do
      let content ← jGetD response "content" (.obj [])
      let json_content ← jGetD content "application/json" (.obj [])
      let hasSchema ←
        if jTruthy json_content then jIn "schema" json_content else pure false
      if jTruthy json_content ∧ hasSchema then
        match json_content with
        | .obj kvs => .ok ((pyGet kvs "schema").getD .null)
        | _ => .error .typeError
      else parseResponses rest
    else parseResponses rest

/-- `path.replace('/', '_').replace('{', '').replace('}', '')`: all three
patterns are single characters and none of the replacements reintroduces a
pattern character, so the chain is a single per-character pass. -/
def cleanPath (path : String) : String :=
  String.mk (path.data.flatMap fun c =>
    if c = '/' then ['_'] else if c = '\x7b' then [] else if c = '\x7d' then [] else [c])

/-- `OCPSchemaDiscovery._create_tool_from_operation`. The generated name
and description are narrowed to strings where they are truthy. -/
def createToolFromOperation (path method : String) (operation : Json) :
    Except PyErr OCPTool := do
  let opIdRaw ← jGetD operation "operationId" .null
  let tool_name ←
    if jTruthy opIdRaw then
      match opIdRaw with
      | .str s => .ok s
      | _ => .error .typeError
    else .ok (strLower method ++ cleanPath path)
  let summary ← jGetD operation "summary" (.str "")
  let descRaw ← jGetD operation "description" (.str "")
  let desc0 := if jTruthy summary then summary else descRaw
  let description ←
    if jTruthy desc0 then
      match desc0 with
      | .str s => .ok s
      | _ => .error .typeError
    else .ok (method ++ " " ++ path)
  let declared ← jGetD operation "parameters" (.arr [])
  let parameters ←
    match declared with
    | .arr ps => parseParameters ps
    | _ => .error .typeError
  let hasBody ← jIn "requestBody" operation
  let parameters ←
    if (method = "POST" ∨ method = "PUT" ∨ method = "PATCH") ∧ hasBody then do
      let rb ← jGetD operation "requestBody" .null
      let body_params ← parseRequestBody rb
      pure (pyUpdate parameters body_params)
    else pure parameters
  let responsesRaw ← jGetD operation "responses" (.obj [])
  let response_schema ←
    match responsesRaw with
    | .obj rs => parseResponses rs
    | _ => .error .attributeError
  let tags ← jGetD operation "tags" (.arr [])
  .ok { name := tool_name, description, method, path, parameters, response_schema,
        operation_id := opIdRaw, tags }

/-- The HTTP methods exposed as tools. -/
def toolMethods : List String := ["get", "post", "put", "patch", "delete"]

/-- The inner loop over one path item's methods. -/
def toolsOfPathItem (path : String) : List (String × Json) → Except PyErr (List OCPTool)
  | [] => .ok []
  | (method, operation) :: rest =>
    if toolMethods.contains (strLower method) then do
      let tool ← createToolFromOperation path (strUpper method) operation
      let more ← toolsOfPathItem path rest
      .ok (tool :: more)
    else toolsOfPathItem path rest

/-- The outer loop over the document's paths. -/
def toolsOfPaths : List (String × Json) → Except PyErr (List OCPTool)
  | [] => .ok []
  | (path, path_item) :: rest =>
    match path_item with
    | .obj methods => do
      let here ← toolsOfPathItem path methods
      let more ← toolsOfPaths rest
      .ok (here ++ more)
    | _ => .error .attributeError

/-- `d.get(key, default)` narrowed to a string result. -/
def getStrFieldJ (j : Json) (key dflt : String) : Except PyErr String := do
  match ← jGetD j key (.str dflt) with
  | .str s => .ok s
  | _ => .error .typeError

/-- Base-URL resolution from the document's servers list. -/
def serversBaseUrl (spec_data : Json) : Except PyErr String := do
  let servers ← jGetD spec_data "servers" (.arr [])
  if jTruthy servers then
    match servers with
    | .arr (s0 :: _) => do
      match ← jGetD s0 "url" (.str "") with
      | .str s => .ok s
      | _ => .error .typeError
    | _ => .error .typeError
  else .ok ""

/-- `OCPSchemaDiscovery._parse_openapi_spec`. -/
def parseOpenapiSpec (spec_data : Json) (base_url_override : Option String) :
    Except PyErr OCPAPISpec := do
  let info ← jGetD spec_data "info" (.obj [])
  let title ← getStrFieldJ info "title" "Unknown API"
  let version ← getStrFieldJ info "version" "1.0.0"
  let description ← getStrFieldJ info "description" ""
  let base_url ←
    match base_url_override with
    | some b =>
      if b ≠ "" then .ok b else serversBaseUrl spec_data
    | none => serversBaseUrl spec_data
  let paths ← jGetD spec_data "paths" (.obj [])
  let tools ←
    match paths with
    | .obj pkvs => toolsOfPaths pkvs
    | _ => .error .attributeError
  .ok { base_url, title, version, description, tools, raw_spec := spec_data }

/-- `OCPSchemaDiscovery.search_tools`: the accumulating match loop. -/
def search_tools (api_spec : OCPAPISpec) (query : String) : List OCPTool :=
  let query_lower := strLower query
  api_spec.tools.foldl
    (fun acc tool =>
      if strContains (strLower tool.name) query_lower ||
         strContains (strLower tool.description) query_lower then
        acc ++ [tool]
      else acc)
    []

/-! ## Round trip of the context serialisation -/

theorem asStrList_map (l : List String) : asStrList (l.map .str) = .ok l := by
  induction l with
  | nil => rfl
  | cons s rest ih => simp [asStrList, ih, Except.map]

theorem asStrMap_map (l : List (String × String)) :
    asStrMap (l.map fun kv => (kv.1, .str kv.2)) = .ok l := by
  induction l with
  | nil => rfl
  | cons kv rest ih =>
    obtain ⟨k, v⟩ := kv
    simp [asStrMap, ih, Except.map]

theorem getOptStrField_optJson {kvs : List (String × Json)} {key : String}
    {o : Option String} (h : pyGet kvs key = some (optJson o)) :
    getOptStrField kvs key = .ok o := by
  unfold getOptStrField
  rw [h]
  cases o <;> rfl

theorem getDatetimeField_of {kvs : List (String × Json)} {key : String} {d : Datetime}
    (now : Datetime) (h : pyGet kvs key = some (.str d.iso))
    (hz : 'Z' ∉ d.iso.data) (hshape : isoShapeOk d.iso = true) :
    getDatetimeField kvs key now = .ok d := by
  unfold getDatetimeField
  rw [h]
  show datetimeFromisoformat (replaceZ d.iso) = .ok d
  rw [replaceZ_id hz]
  unfold datetimeFromisoformat
  rw [if_pos hshape]

/-- `from_dict` inverts `to_dict` for a context with a non-empty session
and well-formed ISO timestamps. -/
theorem fromDict_toDict (fresh : Fresh) (c : AgentContext) (hs : c.session ≠ [])
    (hca : isoShapeOk c.created_at.iso = true) (hcaz : 'Z' ∉ c.created_at.iso.data)
    (hlu : isoShapeOk c.last_updated.iso = true) (hluz : 'Z' ∉ c.last_updated.iso.data) :
    fromDict fresh (toDict c) = .ok c := by
  have hse : c.session.isEmpty = false := by
    cases hE : c.session with
    | nil => exact absurd hE hs
    | cons kv rest => rfl
  have g1 : getStrField (toDictFields c) "context_id" fresh.ctxId = .ok c.context_id := rfl
  have g2 : getStrField (toDictFields c) "agent_type" "generic_agent" = .ok c.agent_type := rfl
  have g3 : getOptStrField (toDictFields c) "user" = .ok c.user :=
    getOptStrField_optJson rfl
  have g4 : getOptStrField (toDictFields c) "workspace" = .ok c.workspace :=
    getOptStrField_optJson rfl
  have g5 : getOptStrField (toDictFields c) "current_file" = .ok c.current_file :=
    getOptStrField_optJson rfl
  have g6 : getObjField (toDictFields c) "session" = .ok c.session := rfl
  have g7 : getArrField (toDictFields c) "history" = .ok c.history := rfl
  have g8 : getOptStrField (toDictFields c) "current_goal" = .ok c.current_goal :=
    getOptStrField_optJson rfl
  have g9 : getOptStrField (toDictFields c) "context_summary" = .ok c.context_summary :=
    getOptStrField_optJson rfl
  have g10 : getOptStrField (toDictFields c) "error_context" = .ok c.error_context :=
    getOptStrField_optJson rfl
  have g11 : getArrField (toDictFields c) "recent_changes" =
      .ok (c.recent_changes.map .str) := rfl
  have g12 : getObjField (toDictFields c) "api_specs" =
      .ok (c.api_specs.map fun kv => (kv.1, .str kv.2)) := rfl
  have g13 : getDatetimeField (toDictFields c) "created_at" fresh.now = .ok c.created_at :=
    getDatetimeField_of _ rfl hcaz hca
  have g14 : getDatetimeField (toDictFields c) "last_updated" fresh.now =
      .ok c.last_updated :=
    getDatetimeField_of _ rfl hluz hlu
  have hall : (toDictFields c).all (fun kv => fieldNames.contains kv.1) = true := rfl
  show fromDict fresh (.obj (toDictFields c)) = .ok c
  simp only [fromDict]
  rw [if_pos hall]
  simp only [g1, g2, g3, g4, g5, g6, g7, g8, g9, g10, g11, g12, g13, g14,
    asStrList_map, asStrMap_map, bind, Except.bind, mkAgentContext, postInitSession, hse,
    Bool.false_eq_true, if_false]

/-- A plain base64 session value never starts with the `gzip:` marker. -/
theorem b64_not_gzip (bs : List Nat) (hb : ∀ b ∈ bs, b < 256) :
    strStarts (String.mk (b64encodeChars bs)) "gzip:" = false := by
  cases hE : strStarts (String.mk (b64encodeChars bs)) "gzip:" with
  | false => rfl
  | true =>
    exfalso
    unfold strStarts at hE
    have hpre : "gzip:".data <+: (String.mk (b64encodeChars bs)).data :=
      List.isPrefixOf_iff_prefix.mp hE
    have hmem : ':' ∈ b64encodeChars bs := by
      have : ':' ∈ "gzip:".data := by decide
      exact hpre.subset this
    exact b64encode_no_colon bs hb hmem

theorem b64encodeChars_ne_nil (bs : List Nat) (h : bs ≠ []) : b64encodeChars bs ≠ [] := by
  match bs with
  | [] => exact absurd rfl h
  | [b0] => simp [b64encodeChars]
  | [b0, b1] => simp [b64encodeChars]
  | b0 :: b1 :: b2 :: rest => simp [b64encodeChars]

theorem utf8EncodeChar_ne_nil (c : Char) : utf8EncodeChar c ≠ [] := by
  unfold utf8EncodeChar
  dsimp only []
  split_ifs <;> simp

theorem utf8Encode_dumps_ne_nil (c : AgentContext) :
    utf8Encode (jsonDumps (toDict c)) ≠ [] := by
  have : jsonDumpChars (toDict c) = '\x7b' :: (dumpItems (toDictFields c) ++ ['\x7d']) :=
    rfl
  unfold utf8Encode jsonDumps
  rw [show (String.mk (jsonDumpChars (toDict c))).data = jsonDumpChars (toDict c) from rfl,
    this, List.flatMap_cons]
  intro hcontra
  have := List.append_eq_nil.mp hcontra
  exact utf8EncodeChar_ne_nil _ this.1

theorem string_mk_ne_empty {l : List Char} (h : l ≠ []) : String.mk l ≠ "" := by
  intro hc
  have : l = ("" : String).data := congrArg String.data hc
  simp at this
  exact h this

/-- The session header value is never the empty string. -/
theorem sessionValue_ne_empty (c : AgentContext) (compress : Bool) :
    sessionValue c compress ≠ "" := by
  unfold sessionValue
  dsimp only []
  split_ifs with h
  · exact string_mk_ne_empty (by simp)
  · exact string_mk_ne_empty
      (b64encodeChars_ne_nil _ (utf8Encode_dumps_ne_nil c))

/-- Decoding the session value recovers the context. -/
theorem decodeSessionData_sessionValue (c : AgentContext) (compress : Bool) (fresh : Fresh)
    (hs : c.session ≠ [])
    (hca : isoShapeOk c.created_at.iso = true) (hcaz : 'Z' ∉ c.created_at.iso.data)
    (hlu : isoShapeOk c.last_updated.iso = true) (hluz : 'Z' ∉ c.last_updated.iso.data) :
    decodeSessionData (sessionValue c compress) fresh = .ok c := by
  have hbytes : ∀ b ∈ utf8Encode (jsonDumps (toDict c)), b < 256 :=
    utf8Encode_lt (jsonDumps (toDict c))
  have hfd := fromDict_toDict fresh c hs hca hcaz hlu hluz
  unfold sessionValue
  by_cases hbig : compress = true ∧ (jsonDumps (toDict c)).length > 1000
  · rw [if_pos hbig]
    set enc := b64encodeChars (gzipCompress (utf8Encode (jsonDumps (toDict c)))) with hencdef
    have hgz : strStarts (String.mk ('g' :: 'z' :: 'i' :: 'p' :: ':' :: enc)) "gzip:" =
        true := by
      unfold strStarts
      simp [List.isPrefixOf, string_mk_data]
    have hasc : asciiEncode (String.mk enc) = .ok enc := by
      unfold asciiEncode
      rw [if_pos]
      exact List.all_eq_true.mpr fun x hx => by
        simpa using b64encode_ascii _ (gzipCompress_lt _ hbytes) x hx
    have hb64 : b64decodeChars enc = .ok (gzipCompress (utf8Encode (jsonDumps (toDict c)))) :=
      b64_roundtrip _ (gzipCompress_lt _ hbytes)
    unfold decodeSessionData
    rw [if_pos hgz]
    rw [show (String.mk ('g' :: 'z' :: 'i' :: 'p' :: ':' :: enc)).data.drop 5 = enc from rfl]
    simp only [hasc, hb64, gzip_roundtrip, utf8_roundtrip, bind, Except.bind, Except.map,
      string_mk_data, jsonLoads_jsonDumps, hfd]
  · rw [if_neg hbig]
    have hng := b64_not_gzip _ hbytes
    have hasc : asciiEncode (String.mk (b64encodeChars (utf8Encode (jsonDumps (toDict c))))) =
        .ok (b64encodeChars (utf8Encode (jsonDumps (toDict c)))) := by
      unfold asciiEncode
      rw [if_pos]
      exact List.all_eq_true.mpr fun x hx => by
        simpa using b64encode_ascii _ hbytes x hx
    have hb64 : b64decodeChars (b64encodeChars (utf8Encode (jsonDumps (toDict c)))) =
        .ok (utf8Encode (jsonDumps (toDict c))) := b64_roundtrip _ hbytes
    unfold decodeSessionData
    rw [if_neg (by rw [hng]; exact Bool.false_ne_true)]
    simp only [hasc, hb64, utf8_roundtrip, bind, Except.bind, Except.map, string_mk_data,
      jsonLoads_jsonDumps, hfd]

/-- On the headers `encode_context` emits, the lowercase-normalised lookup
finds the context id and the session value. -/
theorem normalize_encode_gets (c : AgentContext) (compress : Bool) :
    pyGet (normalizeHeaders (encodeContext c compress)) "ocp-context-id"
      = some c.context_id ∧
    pyGet (normalizeHeaders (encodeContext c compress)) "ocp-session"
      = some (sessionValue c compress) := by
  unfold encodeContext
  dsimp only []
  cases c.current_goal with
  | none =>
    dsimp only []
    cases c.workspace with
    | none => exact ⟨rfl, rfl⟩
    | some w =>
      dsimp only []
      by_cases hw : w = ""
      · rw [if_pos hw]; exact ⟨rfl, rfl⟩
      · rw [if_neg hw]; exact ⟨rfl, rfl⟩
  | some g =>
    dsimp only []
    by_cases hg : g = ""
    · rw [if_pos hg]
      cases c.workspace with
      | none => exact ⟨rfl, rfl⟩
      | some w =>
        dsimp only []
        by_cases hw : w = ""
        · rw [if_pos hw]; exact ⟨rfl, rfl⟩
        · rw [if_neg hw]; exact ⟨rfl, rfl⟩
    · rw [if_neg hg]
      cases c.workspace with
      | none => exact ⟨rfl, rfl⟩
      | some w =>
        dsimp only []
        by_cases hw : w = ""
        · rw [if_pos hw]; exact ⟨rfl, rfl⟩
        · rw [if_neg hw]; exact ⟨rfl, rfl⟩

/-- C1: decoding the headers produced by encoding an `AgentContext` (under
any re-casing of the header keys) recovers the context in every field, for
both compression settings — provided the context id is non-empty, the
session dict is non-empty, and both timestamps are well-formed ISO strings
without a `Z` designator. Without those provisos the round trip fails (see
the counterexample). -/
theorem encode_decode_roundtrip (c : AgentContext) (compress : Bool) (fresh : Fresh)
    (hdrs : List (String × String))
    (hcase : normalizeHeaders hdrs = normalizeHeaders (encodeContext c compress))
    (hid : c.context_id ≠ "")
    (hs : c.session ≠ [])
    (hca : isoShapeOk c.created_at.iso = true) (hcaz : 'Z' ∉ c.created_at.iso.data)
    (hlu : isoShapeOk c.last_updated.iso = true) (hluz : 'Z' ∉ c.last_updated.iso.data) :
    decodeContext hdrs fresh = .ok (some c) := by
  have hget := normalize_encode_gets c compress
  unfold decodeContext
  dsimp only []
  rw [hcase,
    show strLower OCP_CONTEXT_ID = "ocp-context-id" from rfl,
    show strLower OCP_SESSION = "ocp-session" from rfl,
    hget.1, hget.2]
  dsimp only []
  rw [if_neg (by
    intro h
    rcases h with h | h
    · exact hid h
    · exact sessionValue_ne_empty c compress h)]
  rw [decodeSessionData_sessionValue c compress fresh hs hca hcaz hlu hluz]

def cW : AgentContext :=
  { context_id := "ctx-1", agent_type := "generic_agent", user := none,
    workspace := none, current_file := none,
    session := [("k", .str "v")], history := [.num 7], current_goal := some "goal",
    context_summary := none, error_context := none, recent_changes := ["r1"],
    api_specs := [("a", "https://example.com")],
    created_at := ⟨"2024-01-02T03:04:05+00:00"⟩,
    last_updated := ⟨"2024-01-02T03:04:06+00:00"⟩ }

def freshW : Fresh := { ctxId := "fresh-id", now := ⟨"2025-01-01T00:00:00+00:00"⟩ }

theorem encode_decode_roundtrip_witness :
    decodeContext (encodeContext cW true) freshW = .ok (some cW) :=
  encode_decode_roundtrip cW true freshW (encodeContext cW true) rfl
    (by decide) (by simp [cW]) (by decide) (by decide) (by decide) (by decide)

def cEmptyId : AgentContext :=
  { cW with context_id := "" }

/-- C1 counterexample: with an empty `context_id` the encoded headers decode
to `None`, not to the original context — the unqualified round-trip claim
fails. -/
theorem encode_decode_roundtrip_cex :
    decodeContext (encodeContext cEmptyId true) freshW = .ok none ∧
    (Except.ok none : Except PyErr (Option AgentContext)) ≠ .ok (some cEmptyId) :=
  ⟨rfl, by simp⟩

/-- C2: when both headers are present with non-empty values and the session
decoding chain fails, `decode_context` returns `None` exactly when the failure
is one of the four caught classes — `json.JSONDecodeError`, `binascii.Error`
(bad base64), `gzip.BadGzipFile` (a payload without the gzip magic header)
and `UnicodeDecodeError` (non-UTF-8 bytes). Any other failure propagates to
the caller: the `EOFError` a truncated gzip stream raises past its magic
header, and the `TypeError` raised when the decoded JSON does not match the
`AgentContext` shape. -/
theorem decode_errors_to_none (hdrs : List (String × String)) (fresh : Fresh)
    (cid sd : String) (e : PyErr)
    (hcid : pyGet (normalizeHeaders hdrs) "ocp-context-id" = some cid)
    (hsd : pyGet (normalizeHeaders hdrs) "ocp-session" = some sd)
    (hcne : cid ≠ "") (hsne : sd ≠ "")
    (herr : decodeSessionData sd fresh = .error e) :
    decodeContext hdrs fresh = if caughtErr e then .ok none else .error e := by
  unfold decodeContext
  dsimp only []
  rw [show strLower OCP_CONTEXT_ID = "ocp-context-id" from rfl,
      show strLower OCP_SESSION = "ocp-session" from rfl, hcid, hsd]
  dsimp only []
  rw [if_neg (by
    intro h
    rcases h with h | h
    · exact hcne h
    · exact hsne h)]
  rw [herr]

theorem decode_errors_to_none_witness :
    decodeContext [("OCP-Context-ID", "x"), ("OCP-Session", "AAA")] freshW = .ok none := by
  have h := decode_errors_to_none [("OCP-Context-ID", "x"), ("OCP-Session", "AAA")] freshW
    "x" "AAA" PyErr.binasciiError rfl rfl (by decide) (by decide) rfl
  exact h.trans rfl

/-- C2 counterexample: a well-formed payload of the wrong JSON shape (a list)
makes `from_dict` raise `TypeError`, which `decode_context` does not catch —
the claim that every decoding failure yields `None` fails. -/
theorem decode_errors_to_none_cex :
    decodeContext [("OCP-Context-ID", "x"), ("OCP-Session", "WzEsMl0=")] freshW
      = .error .typeError := rfl

/-- C10: a context-id or session header bound to the empty string makes
`decode_context` return `None`, the same as a missing header. -/
theorem empty_header_value_none (hdrs : List (String × String)) (fresh : Fresh)
    (cid sd : String)
    (hcid : pyGet (normalizeHeaders hdrs) "ocp-context-id" = some cid)
    (hsd : pyGet (normalizeHeaders hdrs) "ocp-session" = some sd)
    (h : cid = "" ∨ sd = "") :
    decodeContext hdrs fresh = .ok none := by
  unfold decodeContext
  dsimp only []
  rw [show strLower OCP_CONTEXT_ID = "ocp-context-id" from rfl,
      show strLower OCP_SESSION = "ocp-session" from rfl, hcid, hsd]
  dsimp only []
  rw [if_pos h]

theorem empty_header_value_none_witness :
    decodeContext [("OCP-Context-ID", ""), ("OCP-Session", "zzz")] freshW = .ok none :=
  empty_header_value_none [("OCP-Context-ID", ""), ("OCP-Session", "zzz")] freshW
    "" "zzz" rfl rfl (Or.inl rfl)

/-- `encode_context` always carries the session value under `OCP-Session`. -/
theorem encode_session_get (c : AgentContext) (compress : Bool) :
    pyGet (encodeContext c compress) OCP_SESSION = some (sessionValue c compress) := by
  unfold encodeContext
  dsimp only []
  cases c.current_goal with
  | none =>
    dsimp only []
    cases c.workspace with
    | none => rfl
    | some w =>
      dsimp only []
      by_cases hw : w = ""
      · rw [if_pos hw]; rfl
      · rw [if_neg hw]; rfl
  | some g =>
    dsimp only []
    by_cases hg : g = ""
    · rw [if_pos hg]
      cases c.workspace with
      | none => rfl
      | some w =>
        dsimp only []
        by_cases hw : w = ""
        · rw [if_pos hw]; rfl
        · rw [if_neg hw]; rfl
    · rw [if_neg hg]
      cases c.workspace with
      | none => rfl
      | some w =>
        dsimp only []
        by_cases hw : w = ""
        · rw [if_pos hw]; rfl
        · rw [if_neg hw]; rfl

/-- C3: the session header value `encode_context` emits starts with `gzip:`
exactly when `compress` is set and the serialised JSON is strictly longer
than 1000 characters; in particular a JSON strictly shorter than 1000 bytes
is never compressed, but one of exactly 1000 bytes is not compressed either
(see the counterexample), against the claim's `≥ 1000` reading. -/
theorem gzip_threshold (c : AgentContext) (compress : Bool) :
    pyGet (encodeContext c compress) OCP_SESSION = some (sessionValue c compress) ∧
    (strStarts (sessionValue c compress) "gzip:" = true ↔
      compress = true ∧ (jsonDumps (toDict c)).length > 1000) := by
  refine ⟨encode_session_get c compress, ?_⟩
  unfold sessionValue
  dsimp only []
  by_cases h : compress = true ∧ (jsonDumps (toDict c)).length > 1000
  · rw [if_pos h]
    constructor
    · intro _; exact h
    · intro _
      unfold strStarts
      simp [List.isPrefixOf, string_mk_data]
  · rw [if_neg h]
    constructor
    · intro hgz
      rw [b64_not_gzip _ (utf8Encode_lt _)] at hgz
      exact absurd hgz Bool.false_ne_true
    · intro hc; exact absurd hc h

def cBig : AgentContext :=
  { cW with current_goal := some (String.mk (List.replicate 656 'a')) }

set_option maxRecDepth 100000 in
/-- C3 counterexample: a context whose serialised JSON is exactly 1000 bytes
long is not gzip-compressed even with `compress = true` — the threshold is
strict, `> 1000`, not `≥ 1000`. -/
theorem gzip_threshold_cex :
    (jsonDumps (toDict cBig)).length = 1000 ∧
    strStarts (sessionValue cBig true) "gzip:" = false := ⟨by rfl, by rfl⟩

theorem foldl_append_filter {α : Type} (p : α → Bool) (xs acc : List α) :
    xs.foldl (fun a x => if p x then a ++ [x] else a) acc = acc ++ xs.filter p := by
  induction xs generalizing acc with
  | nil => simp
  | cons x rest ih =>
    by_cases hx : p x
    · simp [List.foldl_cons, if_pos hx, ih, List.filter_cons, hx]
    · simp [List.foldl_cons, if_neg hx, ih, List.filter_cons, hx]

theorem strContains_empty (hay : String) : strContains hay "" = true := by
  show listContainsSub [] hay.data = true
  cases hay.data with
  | nil => rfl
  | cons c r => rfl

/-- C4: `search_tools` returns exactly the tools whose name or description
contains the query case-insensitively, in the original order; and because
every string contains the empty substring, the empty query returns the
whole tool list (not the empty list the claim states). -/
theorem search_tools_spec (api_spec : OCPAPISpec) (query : String) :
    search_tools api_spec query = api_spec.tools.filter (fun tool =>
      strContains (strLower tool.name) (strLower query) ||
      strContains (strLower tool.description) (strLower query)) ∧
    search_tools api_spec "" = api_spec.tools := by
  constructor
  · unfold search_tools
    dsimp only []
    exact foldl_append_filter _ _ []
  · unfold search_tools
    dsimp only []
    rw [show strLower "" = "" from rfl]
    have hall : ∀ tool : OCPTool,
        (strContains (strLower tool.name) "" ||
         strContains (strLower tool.description) "") = true := by
      intro tool
      rw [strContains_empty, strContains_empty]
      rfl
    calc api_spec.tools.foldl
          (fun acc tool =>
            if strContains (strLower tool.name) "" ||
               strContains (strLower tool.description) "" then acc ++ [tool] else acc) []
        = [] ++ api_spec.tools.filter (fun tool =>
            strContains (strLower tool.name) "" ||
            strContains (strLower tool.description) "") := foldl_append_filter _ _ []
      _ = api_spec.tools := by
          rw [List.nil_append]
          exact List.filter_eq_self.mpr fun tool _ => hall tool

def toolW : OCPTool :=
  { name := "list_users", description := "Get all users", method := "GET",
    path := "/users", parameters := [], response_schema := .obj [],
    operation_id := .null, tags := .arr [] }

def apiSpecW : OCPAPISpec :=
  { base_url := "https://api.example.com", title := "Test API", version := "1.0.0",
    description := "A test API", tools := [toolW], raw_spec := .obj [] }

/-- C4 counterexample: on a one-tool spec the empty query returns the whole
tool list, not the empty list the claim asserts. -/
theorem search_tools_cex :
    search_tools apiSpecW "" = [toolW] ∧ [toolW] ≠ ([] : List OCPTool) :=
  ⟨rfl, by simp⟩

/-- C5: `strip_ocp_headers` removes exactly the entries whose lowered key is
in the fixed six-name list; any other key — including `OCP-User` and every
other `OCP-`prefixed name outside the list — is retained with its value, so
the claim's "every OCP-prefixed key is removed" fails. -/
theorem strip_headers_spec (headers : List (String × String)) (k : String) :
    pyGet (strip_ocp_headers headers) k =
      if ocpHeaderNames.contains (strLower k) = true then none
      else pyGet headers k := by
  induction headers with
  | nil =>
    by_cases hc : ocpHeaderNames.contains (strLower k) = true <;>
      simp [strip_ocp_headers, pyGet, hc]
  | cons kv rest ih =>
    obtain ⟨a, v⟩ := kv
    by_cases hc : strLower a ∈ ocpHeaderNames
    · have hstep : strip_ocp_headers ((a, v) :: rest) = strip_ocp_headers rest := by
        simp [strip_ocp_headers, List.filter_cons, hc]
      rw [hstep, ih]
      by_cases hk : a = k
      · subst hk
        simp [hc]
      · by_cases hck : strLower k ∈ ocpHeaderNames <;>
          simp [hck, pyGet, hk]
    · have hstep : strip_ocp_headers ((a, v) :: rest) =
          (a, v) :: strip_ocp_headers rest := by
        simp [strip_ocp_headers, List.filter_cons, hc]
      rw [hstep]
      by_cases hk : a = k
      · subst hk
        simp [pyGet, hc]
      · rw [show pyGet ((a, v) :: strip_ocp_headers rest) k
              = pyGet (strip_ocp_headers rest) k from by simp [pyGet, hk]]
        rw [ih]
        by_cases hck : strLower k ∈ ocpHeaderNames <;>
          simp [hck, pyGet, hk]

/-- C5 counterexample: `OCP-User` carries the OCP prefix but survives
`strip_ocp_headers` — the fixed name list omits it. -/
theorem strip_headers_cex :
    strStarts "OCP-User" "OCP" = true ∧
    strip_ocp_headers [("OCP-User", "alice"), ("X-Custom", "1")]
      = [("OCP-User", "alice"), ("X-Custom", "1")] := ⟨rfl, rfl⟩

/-- C7: `merge_headers` builds a new map in which every key of the OCP
headers is bound to its OCP value and every other key keeps its base value
(assuming the OCP header names are distinct, as the literal dict built by
`encode_context` always is). -/
theorem merge_headers_spec (base ocp : List (String × String)) (k : String)
    (hnd : (ocp.map Prod.fst).Nodup) :
    pyGet (mergeHeaders base ocp) k = (pyGet ocp k).or (pyGet base k) :=
  pyGet_pyUpdate base ocp k hnd

theorem merge_headers_spec_witness :
    pyGet (mergeHeaders [("OCP-Context-ID", "old")] [("OCP-Context-ID", "new")])
        "OCP-Context-ID" = some "new" := by
  have h := merge_headers_spec [("OCP-Context-ID", "old")] [("OCP-Context-ID", "new")]
    "OCP-Context-ID" (by simp)
  exact h.trans rfl

/-- The last `n` elements of a list. -/
def takeLast {α : Type} (n : Nat) (xs : List α) : List α :=
  xs.drop (xs.length - n)

theorem takeLast_append_takeLast {α : Type} (n : Nat) (xs ys : List α) :
    takeLast n (takeLast n xs ++ ys) = takeLast n (xs ++ ys) := by
  unfold takeLast
  rw [List.drop_append_eq_append_drop, List.drop_append_eq_append_drop,
      List.drop_drop, List.length_append, List.length_append, List.length_drop]
  congr 1
  · congr 1
    omega
  · congr 1
    omega

theorem addRecentChange_recent (c : AgentContext) (change : String) (now : Datetime) :
    (addRecentChange c change now).recent_changes
      = takeLast 10 (c.recent_changes ++ [change]) := by
  unfold addRecentChange takeLast
  dsimp only []
  by_cases h : (c.recent_changes ++ [change]).length > 10
  · rw [if_pos h]
  · rw [if_neg h]
    rw [show (c.recent_changes ++ [change]).length - 10 = 0 from by
      simp only [List.length_append, List.length_cons, List.length_nil] at h ⊢
      omega]
    rw [List.drop_zero]

/-- A sequence of `add_recent_change` calls, all stamped with `now`. -/
def applyChanges (c : AgentContext) (changes : List String) (now : Datetime) :
    AgentContext :=
  changes.foldl (fun acc ch => addRecentChange acc ch now) c

theorem applyChanges_recent (c : AgentContext) (changes : List String) (now : Datetime)
    (hc : c.recent_changes.length ≤ 10) :
    (applyChanges c changes now).recent_changes
      = takeLast 10 (c.recent_changes ++ changes) := by
  induction changes generalizing c with
  | nil =>
    unfold applyChanges takeLast
    rw [List.foldl_nil, List.append_nil,
      show c.recent_changes.length - 10 = 0 from by omega, List.drop_zero]
  | cons ch rest ih =>
    unfold applyChanges
    rw [List.foldl_cons]
    have hlen : (addRecentChange c ch now).recent_changes.length ≤ 10 := by
      rw [addRecentChange_recent]
      unfold takeLast
      rw [List.length_drop]
      omega
    have := ih (addRecentChange c ch now) hlen
    unfold applyChanges at this
    rw [this, addRecentChange_recent, takeLast_append_takeLast, List.append_assoc,
      List.singleton_append]

/-- C8: a single `add_recent_change` never leaves more than 10 entries, and
from a context holding at most 10 entries, any run of `n ≥ 10` adds leaves
exactly the last 10 added entries in their original relative order. -/
theorem recent_changes_bound (c : AgentContext) (change : String)
    (changes : List String) (now : Datetime)
    (hc : c.recent_changes.length ≤ 10) (hn : 10 ≤ changes.length) :
    (addRecentChange c change now).recent_changes.length ≤ 10 ∧
    (applyChanges c changes now).recent_changes
      = changes.drop (changes.length - 10) := by
  constructor
  · rw [addRecentChange_recent]
    unfold takeLast
    rw [List.length_drop]
    omega
  · rw [applyChanges_recent c changes now hc]
    unfold takeLast
    rw [List.drop_append_eq_append_drop, List.length_append]
    rw [show c.recent_changes.length + changes.length - 10 - c.recent_changes.length
          = changes.length - 10 from by omega]
    rw [show c.recent_changes.drop (c.recent_changes.length + changes.length - 10)
          = [] from List.drop_eq_nil_of_le (by omega), List.nil_append]

theorem recent_changes_bound_witness :
    (addRecentChange cW "c0" freshW.now).recent_changes.length ≤ 10 ∧
    (applyChanges cW ["c1", "c2", "c3", "c4", "c5", "c6", "c7", "c8", "c9", "c10",
        "c11", "c12", "c13", "c14", "c15"] freshW.now).recent_changes
      = ["c6", "c7", "c8", "c9", "c10", "c11", "c12", "c13", "c14", "c15"] := by
  have h := recent_changes_bound cW "c0"
    ["c1", "c2", "c3", "c4", "c5", "c6", "c7", "c8", "c9", "c10",
     "c11", "c12", "c13", "c14", "c15"] freshW.now (by decide) (by decide)
  exact ⟨h.1, h.2.trans rfl⟩

/-- An optional string entry of the `info` object. -/
def optEntry (key : String) : Option String → List (String × Json)
  | none => []
  | some s => [(key, .str s)]

/-- An OpenAPI document whose `info` object carries any subset of the three
metadata fields (and no paths). -/
def mkInfoDoc (t v d : Option String) : Json :=
  .obj [("info", .obj (optEntry "title" t ++ optEntry "version" v ++
    optEntry "description" d))]

/-- C6: parsing succeeds whatever subset of `info.title` / `info.version` /
`info.description` is present, with defaults `"Unknown API"` for the title,
`"1.0.0"` for the version and `""` for the description — the claim swaps the
title and description defaults. -/
theorem parse_spec_defaults (t v d : Option String) :
    ∃ spec, parseOpenapiSpec (mkInfoDoc t v d) none = .ok spec ∧
      spec.title = t.getD "Unknown API" ∧
      spec.version = v.getD "1.0.0" ∧
      spec.description = d.getD "" := by
  cases t <;> cases v <;> cases d <;> exact ⟨_, rfl, rfl, rfl, rfl⟩

/-- C6 counterexample: a document with an empty `info` object parses with
title `"Unknown API"` and description `""`, not title `""` and description
`"Unknown API"` as claimed. -/
theorem parse_spec_defaults_cex :
    parseOpenapiSpec (.obj []) none
      = .ok { base_url := "", title := "Unknown API", version := "1.0.0",
              description := "", tools := [], raw_spec := .obj [] } ∧
    "Unknown API" ≠ "" := ⟨rfl, by decide⟩

/-- A POST/PUT/PATCH-style operation that declares a query parameter `name`
and also defines a request-body object property of the same name. -/
def mkCollisionOp (name : String) : Json :=
  .obj [("parameters", .arr [.obj [("name", .str name), ("in", .str "query")]]),
        ("requestBody", .obj [("content", .obj [("application/json", .obj [("schema",
          .obj [("type", .str "object"),
                ("properties", .obj [(name, .obj [("type", .str "integer")])]),
                ("required", .arr [.str name])])])])])]

/-- C9: on a POST, PUT or PATCH operation where the declared parameter list
and the request-body object schema define the same (non-empty) name, the
discovered tool holds exactly one parameter entry under that name and its
location is `body` — the request-body property overrides the declared
parameter. -/
theorem body_param_override (method path name : String)
    (hm : method = "POST" ∨ method = "PUT" ∨ method = "PATCH") (hn : name ≠ "") :
    (createToolFromOperation path method (mkCollisionOp name)).map
        (fun tool => tool.parameters)
      = .ok [(name, .obj [("description", .str ""), ("required", .bool true),
          ("location", .str "body"), ("type", .str "integer")])] := by
  rcases hm with rfl | rfl | rfl <;>
    simp [createToolFromOperation, mkCollisionOp, parseParameters, parseOneParam,
      parseRequestBody, parseOneProp, parseResponses, jGetD, jGet, jIn, jEqStr,
      jTruthy, pyGet, pyGetD, pyInsert, pyUpdate, bind, Except.bind, Except.map,
      pure, Except.pure, hn]

theorem body_param_override_witness :
    (createToolFromOperation "/users" "POST" (mkCollisionOp "name")).map
        (fun tool => tool.parameters)
      = .ok [("name", .obj [("description", .str ""), ("required", .bool true),
          ("location", .str "body"), ("type", .str "integer")])] :=
  body_param_override "POST" "/users" "name" (Or.inl rfl) (by decide)

end OCP
